import Mathlib

/-!
Verification development for a level-retracement futures trading engine.

The development shallowly embeds the strategy state machine
(`strategy/strategy.py`), the CME trading-hours oracle
(`lib/cme_trading_hours.py`), the persistence round trip
(`lib/state_persistence.py` together with `Strategy.get_state` /
`Strategy.set_state`), and the webhook dispatcher (`main.py`).

Modelling conventions:
* Prices are rationals (`ℚ`); the Python source uses floats, but no claim
  here depends on rounding, and the tick arithmetic (`offset / 4`,
  `0.1 * 4 * 12.5`) is exact in `ℚ`.
* Timestamps are absolute seconds (`Nat`) with second 0 falling on a
  Monday 00:00 exchange-local (America/Chicago) wall clock.  The source
  treats naive datetimes as already being in Chicago time
  (`CMETradingHours._to_chicago_time`), so weekday and time-of-day are
  plain arithmetic on the timestamp.
* Python exceptions are modelled with `Except String`; Python list
  indexing raises `IndexError` when out of range, `list.index` raises
  `ValueError` when the element is absent, and the strategy's own
  `raise ("ERROR ")` is the string `"ERROR"`.
* Python `set` becomes a duplicate-free list (`insertL`), a Python dict
  keyed by `0..N-1` becomes a list of length `N`.
-/

/-- Decidable equality for `Except`, used to state concrete evaluations
of fallible operations. -/
instance {ε α : Type} [DecidableEq ε] [DecidableEq α] : DecidableEq (Except ε α) := by
  intro a b
  cases a <;> cases b
  case ok.ok x y => exact decidable_of_iff (x = y) (by simp)
  case error.error x y => exact decidable_of_iff (x = y) (by simp)
  all_goals exact isFalse (by simp)

/-- Trade-history record kinds: the strings 'BUY', 'SELL', 'EXIT',
'FLATTEN' used in `strategy.py`. -/
inductive TradeKind : Type
  | BUY : TradeKind
  | SELL : TradeKind
  | EXIT : TradeKind
  | FLATTEN : TradeKind
  deriving DecidableEq, Repr

/-- Direction stored in `retrace_levels`: the strings 'up' / 'down'.  A
`none` entry models the Python value `None`. -/
inductive Direction : Type
  | up : Direction
  | down : Direction
  deriving DecidableEq, Repr

/-- One entry of `trade_history`: `(index, type, price, pnl)`. -/
structure HistRecord : Type where
  time : Nat
  kind : TradeKind
  price : ℚ
  pnl : ℚ
  deriving DecidableEq, Repr

/-- One entry of `open_trade_list`:
`[trade_time, entry_price, stop_level, trailing_stop, traded_level, take_profit_level]`. -/
structure Trade : Type where
  tradeTime : Nat
  entryPrice : ℚ
  stopLevel : ℚ
  trailingStop : Option ℚ
  tradedLevel : ℚ
  takeProfitLevel : ℚ
  deriving DecidableEq, Repr

/-- Python `set.add` on a set represented as a duplicate-free list. -/
def insertL (i : Nat) (l : List Nat) : List Nat :=
  if i ∈ l then l else l ++ [i]

/-- `self.retrace_levels.get(i)`: the dict is total on `0..N-1`, values are
`'up'`, `'down'` or `None`; a missing key also reads as `None`. -/
def retraceGet (r : List (Option Direction)) (i : Nat) : Option Direction :=
  r.getD i none

/-- `self.retrace_levels[i] = v` (all writes in the source hit existing
keys `0..N-1`). -/
def retraceSet (r : List (Option Direction)) (i : Nat) (v : Option Direction) :
    List (Option Direction) :=
  r.set i v

/-! ### Trading-hours oracle (`lib/cme_trading_hours.py`) -/

/-- Seconds in a day. -/
def secPerDay : Nat := 86400

/-- The exchange-local calendar date of a timestamp (abstract date id). -/
def dateOf (t : Nat) : Nat := t / secPerDay

/-- Python `datetime.weekday()`: Monday = 0 … Sunday = 6 (second 0 of the
model clock is a Monday midnight). -/
def weekdayOf (t : Nat) : Nat := dateOf t % 7

/-- Seconds since local midnight. -/
def secOfDay (t : Nat) : Nat := t % secPerDay

/-- `DAILY_CLOSE_TIME = time(16, 0)` in seconds of day. -/
def dailyCloseSec : Nat := 16 * 3600

/-- `DAILY_REOPEN_TIME = time(17, 0)` in seconds of day. -/
def dailyReopenSec : Nat := 17 * 3600

/-- `FLATTEN_MINUTES_BEFORE_CLOSE = 20` in seconds. -/
def flattenBeforeCloseSec : Nat := 20 * 60

/-- The early-close calendar: date id ↦ close time in seconds of day
(the source maps `"YYYY-MM-DD"` strings to `(hour, minute)` pairs). -/
def EarlyCloseCalendar : Type := List (Nat × Nat)

instance : DecidableEq EarlyCloseCalendar := by
  unfold EarlyCloseCalendar; infer_instance

/-- `CMETradingHours._get_close_time_for_date`. -/
def closeTimeForDate (cal : EarlyCloseCalendar) (t : Nat) : Nat :=
  match List.lookup (dateOf t) cal with
  | some c => c
  | none => dailyCloseSec

/-- `CMETradingHours._get_flatten_time_for_date`: `close − 20 min` taken as
a time of day (`datetime.combine … - timedelta` followed by `.time()`
wraps modulo one day). -/
def flattenTimeForDate (cal : EarlyCloseCalendar) (t : Nat) : Nat :=
  (closeTimeForDate cal t + secPerDay - flattenBeforeCloseSec) % secPerDay

/-- `CMETradingHours.is_market_closed`. -/
def isMarketClosed (cal : EarlyCloseCalendar) (t : Nat) : Bool :=
  let ct := secOfDay t
  let w := weekdayOf t
  let close := closeTimeForDate cal t
  if w = 5 then true
  else if w = 6 then decide (ct < dailyReopenSec)
  else decide (close ≤ ct ∧ ct < dailyReopenSec)

/-- `CMETradingHours.should_flatten_positions`. -/
def shouldFlattenPositions (cal : EarlyCloseCalendar) (t : Nat) : Bool :=
  let ct := secOfDay t
  let w := weekdayOf t
  if w = 5 then false
  else if w = 6 ∧ ct < dailyReopenSec then false
  else decide (flattenTimeForDate cal t ≤ ct ∧ ct < closeTimeForDate cal t)

/-- `CMETradingHours.is_trading_allowed`. -/
def isTradingAllowed (cal : EarlyCloseCalendar) (t : Nat) : Bool :=
  !isMarketClosed cal t && !shouldFlattenPositions cal t

section CalendarChecks
-- Monday 15:45 CT is inside the flatten window.
example : shouldFlattenPositions [] (15 * 3600 + 45 * 60) = true := by decide
-- Monday 12:00 CT trading is allowed.
example : isTradingAllowed [] (12 * 3600) = true := by decide
-- Saturday (day 5) noon is closed.
example : isMarketClosed [] (5 * secPerDay + 12 * 3600) = true := by decide
-- Sunday 16:30 is closed, Sunday 17:30 is open.
example : isTradingAllowed [] (6 * secPerDay + 16 * 3600 + 1800) = false := by decide
example : isTradingAllowed [] (6 * secPerDay + 17 * 3600 + 1800) = true := by decide
end CalendarChecks

/-! ### Strategy state (`Strategy.__init__` plus `load_static_levels`).

The offsets stored here are the already-converted prices
(`entry_offset / 4` etc. from `__init__`).  `MIN_ENTRY_INTERVAL_MINUTES = 5`
appears below as `minEntryIntervalSec`.  The pre-first-update `None`
market fields are modelled as `0`: every phase of `update` runs only
after `update` has overwritten them with the current bar. -/
structure StrategyState : Type where
  -- constructor parameters (after tick conversion)
  entryOffset : ℚ
  takeProfitOffset : ℚ
  stopLossOffset : ℚ
  trailTrigger : Nat
  reEntryDistance : Int
  maxOpenTrades : Int
  maxContractsPerTrade : Nat
  symbolSize : ℚ
  isTradingLong : Bool
  useTradingHours : Bool
  earlyCloseCalendar : EarlyCloseCalendar
  staticLevels : List ℚ
  -- position / bookkeeping
  position : Option Bool        -- some true = 'long', some false = 'short'
  tradeHistory : List HistRecord
  currentCashValue : ℚ
  openTradeCount : Int
  openTradeList : List Trade
  retraceLevels : List (Option Direction)
  totalPnl : ℚ
  cumulativePnl : List ℚ
  -- summary statistics
  winrate : ℚ
  avgWinner : ℚ
  avgLoser : ℚ
  totalTrade : Int
  rewardToRisk : ℚ
  maxLosingStreak : Int
  -- current market state
  price : ℚ
  lastPrice : ℚ
  highPrice : ℚ
  lowPrice : ℚ
  index : Nat
  -- CME trading-hours bookkeeping
  positionsFlattenedToday : Bool
  lastFlattenDate : Option Nat
  -- entry rate limiting
  entriesThisBar : List Nat
  lastBarIndex : Option Nat
  lastEntryTime : Option Nat
  deriving DecidableEq

/-- `MIN_ENTRY_INTERVAL_MINUTES = 5`, in seconds. -/
def minEntryIntervalSec : Int := 5 * 60

/-- `Strategy.calculate_max_open_trades`:
`return self.max_open_trades - self.open_trade_count`. -/
def calculateMaxOpenTrades (s : StrategyState) : Int :=
  s.maxOpenTrades - s.openTradeCount

/-- The per-bar reset at the top of `run_buy_strategy` / `run_sell_strategy`:
`if self.index != self._last_bar_index: self._entries_this_bar = set();
self._last_bar_index = self.index`. -/
def resetBarTracking (s : StrategyState) : StrategyState :=
  if s.lastBarIndex ≠ some s.index then
    { s with entriesThisBar := [], lastBarIndex := some s.index }
  else s

/-- Phase C step of `run_buy_strategy` (lines 327–340): crossing DOWN is
checked first, crossing UP second. -/
def annotateBuyStep (s : StrategyState) (level : ℚ) : StrategyState :=
  let levelIdx := s.staticLevels.indexOf level
  if s.price ≤ level ∧ level < s.highPrice then
    { s with retraceLevels := retraceSet s.retraceLevels levelIdx (some Direction.down) }
  else if s.price ≥ level ∧ level > s.lowPrice then
    { s with retraceLevels := retraceSet s.retraceLevels levelIdx (some Direction.up) }
  else s

/-- Phase C step of `run_sell_strategy` (lines 442–455): crossing UP is
checked first, crossing DOWN second. -/
def annotateSellStep (s : StrategyState) (level : ℚ) : StrategyState :=
  let levelIdx := s.staticLevels.indexOf level
  if s.price ≥ level ∧ level > s.lowPrice then
    { s with retraceLevels := retraceSet s.retraceLevels levelIdx (some Direction.up) }
  else if s.price ≤ level ∧ level < s.highPrice then
    { s with retraceLevels := retraceSet s.retraceLevels levelIdx (some Direction.down) }
  else s

/-- The minimum-interval gate (lines 384–388 / 499–503): skip when
`self._last_entry_time is not None` and
`self.index - self._last_entry_time < timedelta(minutes=5)`. -/
def entryBlocked (s : StrategyState) : Bool :=
  match s.lastEntryTime with
  | none => false
  | some t => decide ((s.index : Int) - (t : Int) < minEntryIntervalSec)

/-- The `for _ in range(self.max_contracts_per_trade)` order loop shared by
`run_buy_strategy` (lines 395–424, `isLong = true`) and
`run_sell_strategy` (lines 511–540, `isLong = false`).  `ok` gives the
outcome of each successive `trader.enter_position` call (a missing trader
is `ok = fun _ => true`); the `Nat` component counts order attempts. -/
def enterContracts (ok : Nat → Bool) (isLong : Bool) (level : ℚ) (levelIdx : Nat) :
    Nat → StrategyState × Nat → StrategyState × Nat
  | 0, acc => acc
  | n + 1, (s, cnt) =>
    let entryPrice := s.price
    let stopLevel := if isLong then entryPrice - s.stopLossOffset else s.price + s.stopLossOffset
    let takeProfitLevel :=
      if isLong then entryPrice + s.takeProfitOffset else entryPrice - s.takeProfitOffset
    let trade : Trade := ⟨s.index, entryPrice, stopLevel, none, level, takeProfitLevel⟩
    let s' :=
      if ok cnt then
        { s with
          position := some isLong
          tradeHistory := s.tradeHistory ++
            [⟨s.index, if isLong then TradeKind.BUY else TradeKind.SELL, entryPrice, 0⟩]
          openTradeList := s.openTradeList ++ [trade]
          openTradeCount := s.openTradeCount + 1
          currentCashValue := s.currentCashValue - entryPrice * (1/10) * 4 * (25/2)
          entriesThisBar := insertL levelIdx s.entriesThisBar
          lastEntryTime := some s.index }
      else s
    enterContracts ok isLong level levelIdx n (s', cnt + 1)

/-- Phase D step of `run_buy_strategy` (lines 344–424) for one ladder
level. -/
def buyEntryStep (ok : Nat → Bool) (acc : StrategyState × Nat) (level : ℚ) :
    StrategyState × Nat :=
  let s := acc.1
  let levelIdx := s.staticLevels.indexOf level
  let reEntryIdx : Int := (levelIdx : Int) + s.reEntryDistance
  let condition1 : Bool :=
    decide (s.price ≤ level + s.entryOffset ∧ level + s.entryOffset < s.lastPrice)
  let condition2 : Bool :=
    decide (0 ≤ reEntryIdx ∧ reEntryIdx < (s.retraceLevels.length : Int))
  -- `... == 'down' if condition2 else False`
  let condition3 : Bool :=
    condition2 && decide (retraceGet s.retraceLevels reEntryIdx.toNat = some Direction.down)
  if condition1 && condition2 && condition3 then
    if levelIdx ∈ s.entriesThisBar then acc
    else if entryBlocked s then acc
    else
      let s' := { s with retraceLevels := retraceSet s.retraceLevels reEntryIdx.toNat none }
      enterContracts ok true level levelIdx s.maxContractsPerTrade (s', acc.2)
  else acc

/-- Phase D step of `run_sell_strategy` (lines 459–540) for one ladder
level. -/
def sellEntryStep (ok : Nat → Bool) (acc : StrategyState × Nat) (level : ℚ) :
    StrategyState × Nat :=
  let s := acc.1
  let levelIdx := s.staticLevels.indexOf level
  let reEntryIdx : Int := (levelIdx : Int) - s.reEntryDistance
  let condition1 : Bool :=
    decide (s.price > level - s.entryOffset ∧ level - s.entryOffset ≥ s.lastPrice)
  let condition2 : Bool :=
    decide (0 ≤ reEntryIdx ∧ reEntryIdx < (s.retraceLevels.length : Int))
  -- `... == 'up' if condition2 else False`
  let condition3 : Bool :=
    condition2 && decide (retraceGet s.retraceLevels reEntryIdx.toNat = some Direction.up)
  if condition1 && condition2 && condition3 then
    if levelIdx ∈ s.entriesThisBar then acc
    else if entryBlocked s then acc
    else
      let s' := { s with retraceLevels := retraceSet s.retraceLevels reEntryIdx.toNat none }
      enterContracts ok false level levelIdx s.maxContractsPerTrade (s', acc.2)
  else acc

/-- `Strategy.run_buy_strategy`.  The local `max_open_trades` room counter
is read only once, at the `if max_open_trades > 0` gate; the in-loop
decrement (line 418) is never consulted again, so it is dropped here. -/
def runBuyStrategy (ok : Nat → Bool) (s : StrategyState) : StrategyState :=
  let s := resetBarTracking s
  let room := calculateMaxOpenTrades s
  let s := s.staticLevels.foldl annotateBuyStep s
  if room > 0 then
    (s.staticLevels.foldl (buyEntryStep ok) (s, 0)).1
  else s

/-- `Strategy.run_sell_strategy`; same remark about the room counter. -/
def runSellStrategy (ok : Nat → Bool) (s : StrategyState) : StrategyState :=
  let s := resetBarTracking s
  let room := calculateMaxOpenTrades s
  let s := s.staticLevels.foldl annotateSellStep s
  if room > 0 then
    (s.staticLevels.foldl (sellEntryStep ok) (s, 0)).1
  else s

/-- The per-trade body of `Strategy.flatten_all_positions` (lines 561–586). -/
def flattenTrade (s : StrategyState) (t : Trade) : StrategyState :=
  let isLongTrade := t.entryPrice < t.takeProfitLevel
  let pnl :=
    if isLongTrade then (s.price - t.entryPrice) * s.symbolSize
    else (t.entryPrice - s.price) * s.symbolSize
  { s with
    currentCashValue := s.currentCashValue + pnl + t.entryPrice * (1/10) * 4 * (25/2)
    totalPnl := s.totalPnl + pnl
    tradeHistory := s.tradeHistory ++ [⟨s.index, TradeKind.FLATTEN, s.price, pnl⟩]
    cumulativePnl := s.cumulativePnl ++ [s.totalPnl + pnl] }

/-- `Strategy.flatten_all_positions`. -/
def flattenAllPositions (s : StrategyState) : StrategyState :=
  if s.openTradeCount = 0 then s
  else
    let s' := s.openTradeList.foldl flattenTrade s
    { s' with openTradeList := [], openTradeCount := 0, position := none }

/-! ### Exit evaluation (`Strategy.check_trade_to_remove`) -/

/-- Python list indexing: `xs[i]` raises `IndexError` when out of range. -/
def pyIndex (xs : List ℚ) (i : Nat) : Except String ℚ :=
  if h : i < xs.length then Except.ok (xs.get ⟨i, h⟩) else Except.error "IndexError"

/-- Python `list.index(x)`: raises `ValueError` when `x` is absent. -/
def pyListIndexOf (xs : List ℚ) (x : ℚ) : Except String Nat :=
  if x ∈ xs then Except.ok (xs.indexOf x) else Except.error "ValueError"

/-- Trailing-stop arming for a long trade (lines 614–626): find the
ladder index of the triggering level (`list.index` raises `ValueError`
when absent), raise the internal error when
`len(self.static_levels) - 2 < index_of_level` (Python integer
arithmetic, hence `Int` subtraction), read
`static_levels[index + trail_trigger]` (Python indexing raises
`IndexError` out of range), and arm when `close` is above it. -/
def armTrailingLong (s : StrategyState) (tr : Trade) : Except String Trade :=
  match tr.trailingStop with
  | some _ => Except.ok tr
  | none =>
    match pyListIndexOf s.staticLevels tr.tradedLevel with
    | Except.error e => Except.error e
    | Except.ok indexOfLevel =>
      if (s.staticLevels.length : Int) - 2 < (indexOfLevel : Int) then
        Except.error "ERROR"
      else
        match pyIndex s.staticLevels (indexOfLevel + s.trailTrigger) with
        | Except.error e => Except.error e
        | Except.ok triggerPrice =>
          if s.price > triggerPrice then
            Except.ok { tr with trailingStop := some triggerPrice }
          else Except.ok tr

/-- Trailing-stop arming for a short trade (lines 656–665): the error
condition is `index_of_level < trail_trigger`, and arming reads
`static_levels[index - trail_trigger]`. -/
def armTrailingShort (s : StrategyState) (tr : Trade) : Except String Trade :=
  match tr.trailingStop with
  | some _ => Except.ok tr
  | none =>
    match pyListIndexOf s.staticLevels tr.tradedLevel with
    | Except.error e => Except.error e
    | Except.ok indexOfLevel =>
      if indexOfLevel < s.trailTrigger then
        Except.error "ERROR"
      else
        match pyIndex s.staticLevels (indexOfLevel - s.trailTrigger) with
        | Except.error e => Except.error e
        | Except.ok triggerPrice =>
          if s.price ≤ triggerPrice then
            Except.ok { tr with trailingStop := some triggerPrice }
          else Except.ok tr

/-- Lines 628–630: `trailing_stop = max(trailing_stop, price − stop_loss_offset)`. -/
def ratchetLong (s : StrategyState) (tr : Trade) : Trade :=
  match tr.trailingStop with
  | some ts => { tr with trailingStop := some (max ts (s.price - s.stopLossOffset)) }
  | none => tr

/-- Lines 667–671: `trailing_stop = min(trailing_stop, price + stop_loss_offset)`. -/
def ratchetShort (s : StrategyState) (tr : Trade) : Trade :=
  match tr.trailingStop with
  | some ts => { tr with trailingStop := some (min ts (s.price + s.stopLossOffset)) }
  | none => tr

/-- The long exit condition (line 632). -/
def exitCondLong (s : StrategyState) (tr : Trade) : Prop :=
  s.price ≤ tr.stopLevel ∨ (∃ ts, tr.trailingStop = some ts ∧ s.price ≤ ts) ∨
    s.price ≥ tr.takeProfitLevel

instance trailingHitDecidable {p : ℚ → Prop} [DecidablePred p] (o : Option ℚ) :
    Decidable (∃ ts, o = some ts ∧ p ts) :=
  match o with
  | none => isFalse (by simp)
  | some v => decidable_of_iff (p v) (by simp)

instance (s : StrategyState) (tr : Trade) : Decidable (exitCondLong s tr) := by
  unfold exitCondLong; infer_instance

/-- The short exit condition (line 673). -/
def exitCondShort (s : StrategyState) (tr : Trade) : Prop :=
  s.price ≥ tr.stopLevel ∨ (∃ ts, tr.trailingStop = some ts ∧ s.price ≥ ts) ∨
    s.price ≤ tr.takeProfitLevel

instance (s : StrategyState) (tr : Trade) : Decidable (exitCondShort s tr) := by
  unfold exitCondShort; infer_instance

/-- The exit bookkeeping (lines 635–641 for a long trade, 674–679 for a
short one): realize pnl, return the margin, append an EXIT record and a
cumulative-pnl point, decrement the counter. -/
def exitTradeState (isLongTrade : Bool) (s : StrategyState) (tr : Trade) : StrategyState :=
  let pnl := if isLongTrade then (s.price - tr.entryPrice) * s.symbolSize
             else (tr.entryPrice - s.price) * s.symbolSize
  { s with
    currentCashValue := s.currentCashValue + pnl + tr.entryPrice * (1/10) * 4 * (25/2)
    totalPnl := s.totalPnl + pnl
    tradeHistory := s.tradeHistory ++ [⟨s.index, TradeKind.EXIT, s.price, pnl⟩]
    cumulativePnl := s.cumulativePnl ++ [s.totalPnl + pnl]
    openTradeCount := s.openTradeCount - 1 }

/-- The body of `check_trade_to_remove` for one open trade (lines
599–691).  Returns the state after the trade's bookkeeping, the trade as
it now sits in `open_trade_list` (trailing-stop writes at index 3 happen
in place), and, when the trade exits, the value appended to
`trades_to_remove`. -/
def checkOneTrade (s : StrategyState) (tr : Trade) :
    Except String (StrategyState × Trade × Option Trade) :=
  if tr.entryPrice < tr.takeProfitLevel then
    match armTrailingLong s tr with
    | Except.error e => Except.error e
    | Except.ok tr1 =>
      let tr2 := ratchetLong s tr1
      if exitCondLong s tr2 then
        Except.ok (exitTradeState true s tr2, tr2, some tr2)
      else
        Except.ok (s, tr2, none)
  else
    match armTrailingShort s tr with
    | Except.error e => Except.error e
    | Except.ok tr1 =>
      let tr2 := ratchetShort s tr1
      if exitCondShort s tr2 then
        Except.ok (exitTradeState false s tr2, tr2, some tr2)
      else
        Except.ok (s, tr2, none)

/-- The `for i in range(len(self.open_trade_list))` loop of
`check_trade_to_remove`: the list length is fixed during the loop,
trailing-stop updates land at position `i`, exits are collected in
`trades_to_remove` in iteration order. -/
def processTrades (s : StrategyState) :
    List Trade → Except String (StrategyState × List Trade × List Trade)
  | [] => Except.ok (s, [], [])
  | tr :: rest => do
    let (s', tr', removed) ← checkOneTrade s tr
    let (s'', rest', removedRest) ← processTrades s' rest
    Except.ok (s'', tr' :: rest', (removed.toList) ++ removedRest)

/-- `Strategy.check_trade_to_remove` (lines 595–699): the whole body runs
only when `open_trade_count > 0`; afterwards each collected trade value is
deleted from the list by first occurrence
(`del self.open_trade_list[self.open_trade_list.index(trade)]`), and the
count is reconciled to the list length if they disagree. -/
def checkTradeToRemove (s : StrategyState) : Except String StrategyState :=
  if s.openTradeCount > 0 then do
    let (s', trades', removals) ← processTrades s s.openTradeList
    let finalList := removals.foldl (fun l r => l.erase r) trades'
    let s' := { s' with openTradeList := finalList }
    let s' :=
      if s'.openTradeCount ≠ (finalList.length : Int) then
        { s' with openTradeCount := (finalList.length : Int) }
      else s'
    Except.ok s'
  else Except.ok s

/-! ### `Strategy.update` (lines 701–747).

The `if None in [price, last_price, high_price]` validation is vacuous
here because bar prices are total values in the model.  `save_state` has
no effect on in-memory strategy state (the persistence round trip is
modelled separately below), so the three `self.save_state()` calls
disappear. -/

/-- One `Strategy.update(index, price, last_price, high_price, low_price)`
call.  `ok` supplies the broker order outcomes for phase D. -/
def update (ok : Nat → Bool) (s : StrategyState) (index : Nat)
    (price lastPrice highPrice lowPrice : ℚ) : Except String StrategyState :=
  let s := { s with
    price := price, lastPrice := lastPrice, highPrice := highPrice,
    lowPrice := lowPrice, index := index }
  if s.useTradingHours then
    let currentDate := dateOf index
    let s :=
      if s.lastFlattenDate ≠ some currentDate then
        { s with positionsFlattenedToday := false }
      else s
    if shouldFlattenPositions s.earlyCloseCalendar index then
      let s :=
        if !s.positionsFlattenedToday ∧ s.openTradeCount > 0 then
          let s := flattenAllPositions s
          { s with positionsFlattenedToday := true, lastFlattenDate := some currentDate }
        else s
      checkTradeToRemove s
    else if !isTradingAllowed s.earlyCloseCalendar index then
      checkTradeToRemove s
    else
      let s := if s.isTradingLong then runBuyStrategy ok s else runSellStrategy ok s
      checkTradeToRemove s
  else
    let s := if s.isTradingLong then runBuyStrategy ok s else runSellStrategy ok s
    checkTradeToRemove s

/-! ### Persistence round trip
(`Strategy.get_state` / `StatePersistence.save_strategy_state` /
`StatePersistence.load_strategy_state` / `Strategy.set_state`).

`get_state` serialises datetimes with `str(...)` and `set_state` parses
them back with `_parse_datetime`; for the timestamps of this model that
round trip is the identity, so string conversion is dropped.  The
decisive structure is which keys survive: the `strategy_state` table
(`state_persistence.py` lines 35–55, 142–165) has **no columns** for
`last_entry_time`, `entries_this_bar` or `last_bar_index`, and
`load_strategy_state` (lines 262–368) therefore never returns them, so
`set_state` falls back to its defaults (`None` / empty set / `None`).
`position`, `_positions_flattened_today` and `_last_flatten_date` are not
part of `get_state` at all. -/

/-- What one `save_strategy_state` transaction durably records for a
strategy (scalar row plus child tables). -/
structure SavedState : Type where
  currentCashValue : ℚ
  openTradeCount : Int
  totalPnl : ℚ
  price : ℚ
  lastPrice : ℚ
  highPrice : ℚ
  lowPrice : ℚ
  lastIndex : Nat
  winrate : ℚ
  avgWinner : ℚ
  avgLoser : ℚ
  totalTrade : Int
  rewardToRisk : ℚ
  maxLosingStreak : Int
  tradeHistory : List HistRecord
  openTradeList : List Trade
  retraceLevels : List (Option Direction)
  cumulativePnl : List ℚ
  staticLevels : List ℚ
  deriving DecidableEq

/-- `save_strategy_state(name, self.get_state())` on a fresh database row:
everything `get_state` emits that has a place in the schema.  The
`last_entry_time`, `entries_this_bar` and `last_bar_index` entries of
`get_state` are dropped because no table stores them. -/
def saveStrategyState (s : StrategyState) : SavedState where
  currentCashValue := s.currentCashValue
  openTradeCount := s.openTradeCount
  totalPnl := s.totalPnl
  price := s.price
  lastPrice := s.lastPrice
  highPrice := s.highPrice
  lowPrice := s.lowPrice
  lastIndex := s.index
  winrate := s.winrate
  avgWinner := s.avgWinner
  avgLoser := s.avgLoser
  totalTrade := s.totalTrade
  rewardToRisk := s.rewardToRisk
  maxLosingStreak := s.maxLosingStreak
  tradeHistory := s.tradeHistory
  openTradeList := s.openTradeList
  retraceLevels := s.retraceLevels
  cumulativePnl := s.cumulativePnl
  staticLevels := s.staticLevels

/-- A fresh `Strategy(...)` instance built with the same constructor
parameters as `s`, followed by `load_static_levels` with the same levels
(`__init__` lines 33–94). -/
def freshInstance (s : StrategyState) : StrategyState where
  entryOffset := s.entryOffset
  takeProfitOffset := s.takeProfitOffset
  stopLossOffset := s.stopLossOffset
  trailTrigger := s.trailTrigger
  reEntryDistance := s.reEntryDistance
  maxOpenTrades := s.maxOpenTrades
  maxContractsPerTrade := s.maxContractsPerTrade
  symbolSize := s.symbolSize
  isTradingLong := s.isTradingLong
  useTradingHours := s.useTradingHours
  earlyCloseCalendar := s.earlyCloseCalendar
  staticLevels := s.staticLevels
  position := none
  tradeHistory := []
  currentCashValue := 0
  openTradeCount := 0
  openTradeList := []
  retraceLevels := s.staticLevels.map (fun _ => none)
  totalPnl := 0
  cumulativePnl := []
  winrate := 0
  avgWinner := 0
  avgLoser := 0
  totalTrade := 0
  rewardToRisk := 0
  maxLosingStreak := 0
  price := 0
  lastPrice := 0
  highPrice := 0
  lowPrice := 0
  index := 0
  positionsFlattenedToday := false
  lastFlattenDate := none
  entriesThisBar := []
  lastBarIndex := none
  lastEntryTime := none

/-- `Strategy.set_state` applied to the dictionary produced by
`load_strategy_state` (which holds exactly the `SavedState` fields): the
entry-rate-limit keys are absent from that dictionary, so lines 247–255
restore their defaults. -/
def setState (s : StrategyState) (st : SavedState) : StrategyState :=
  { s with
    currentCashValue := st.currentCashValue
    openTradeCount := st.openTradeCount
    totalPnl := st.totalPnl
    price := st.price
    lastPrice := st.lastPrice
    highPrice := st.highPrice
    lowPrice := st.lowPrice
    index := st.lastIndex
    winrate := st.winrate
    avgWinner := st.avgWinner
    avgLoser := st.avgLoser
    totalTrade := st.totalTrade
    rewardToRisk := st.rewardToRisk
    maxLosingStreak := st.maxLosingStreak
    tradeHistory := st.tradeHistory
    openTradeList := st.openTradeList
    retraceLevels := st.retraceLevels
    cumulativePnl := st.cumulativePnl
    -- static levels: only adopted when the instance has none (lines 244–245)
    staticLevels := if st.staticLevels ≠ [] ∧ s.staticLevels = [] then st.staticLevels
                    else s.staticLevels
    lastEntryTime := none
    entriesThisBar := []
    lastBarIndex := none }

/-- `save_state` on `s` followed by `load_state` into a fresh instance
with the same constructor parameters and static levels. -/
def persistenceRoundTrip (s : StrategyState) : StrategyState :=
  setState (freshInstance s) (saveStrategyState s)

/-! ### Webhook dispatcher (`main.py`, `receive_signal`, lines 226–247).

After the warm-up bar, the handler runs one swing strategy (chosen by
`IS_LONG_ONLY_TRADE`), then the high-PnL strategy, then stores
`last_price = signal.close`.  The per-strategy updates are the
parameters `upd1`, `upd2`; there is no exception handling around them,
which is exactly what claim C9 is about. -/

/-- `{open, high, low, close}` webhook body. -/
structure Signal : Type where
  openPrice : ℚ
  high : ℚ
  low : ℚ
  close : ℚ
  deriving DecidableEq

/-- Dispatcher globals: the two live strategies and `last_price`. -/
structure Dispatcher (σ₁ σ₂ : Type) : Type where
  strat1 : σ₁
  strat2 : σ₂
  lastPrice : Option ℚ

/-- `receive_signal`: each `updᵢ st close last_price high low` is one
`strategy.update(datetime.now(), signal.close, last_price, signal.high,
signal.low)` call that may raise. -/
def receiveSignal {σ₁ σ₂ ε : Type}
    (upd1 : σ₁ → ℚ → ℚ → ℚ → ℚ → Except ε σ₁)
    (upd2 : σ₂ → ℚ → ℚ → ℚ → ℚ → Except ε σ₂)
    (d : Dispatcher σ₁ σ₂) (sig : Signal) : Except ε (Dispatcher σ₁ σ₂) :=
  match d.lastPrice with
  | none => Except.ok { d with lastPrice := some sig.close }
  | some lp => do
    let s1 ← upd1 d.strat1 sig.close lp sig.high sig.low
    let s2 ← upd2 d.strat2 sig.close lp sig.high sig.low
    Except.ok ⟨s1, s2, some sig.close⟩

/-! ## Proof infrastructure -/

/-- Number of successful order attempts among attempts
`cnt, cnt+1, …, cnt+n-1`. -/
def succCount (ok : Nat → Bool) : Nat → Nat → Nat
  | _, 0 => 0
  | cnt, n + 1 => (if ok cnt then 1 else 0) + succCount ok (cnt + 1) n

theorem succCount_le (ok : Nat → Bool) : ∀ cnt n, succCount ok cnt n ≤ n := by
  intro cnt n
  induction n generalizing cnt with
  | zero => simp [succCount]
  | succ n ih =>
    simp only [succCount]
    have := ih (cnt + 1)
    split <;> omega

theorem succCount_allTrue (ok : Nat → Bool) (h : ∀ m, ok m = true) :
    ∀ cnt n, succCount ok cnt n = n := by
  intro cnt n
  induction n generalizing cnt with
  | zero => simp [succCount]
  | succ n ih => simp [succCount, h, ih]; omega

theorem insertL_insertL (i : Nat) (l : List Nat) :
    insertL i (insertL i l) = insertL i l := by
  unfold insertL
  by_cases h : i ∈ l <;> simp [h]

/-- The trade record built by the order loop. -/
def specEntryTrade (isLong : Bool) (level : ℚ) (time : Nat)
    (price stopLossOffset takeProfitOffset : ℚ) : Trade where
  tradeTime := time
  entryPrice := price
  stopLevel := if isLong then price - stopLossOffset else price + stopLossOffset
  trailingStop := none
  tradedLevel := level
  takeProfitLevel := if isLong then price + takeProfitOffset else price - takeProfitOffset

/-- The history record appended by the order loop. -/
def specEntryRecord (isLong : Bool) (time : Nat) (price : ℚ) : HistRecord where
  time := time
  kind := if isLong then TradeKind.BUY else TradeKind.SELL
  price := price
  pnl := 0

/-- Closed form of the order loop: with `k` successful orders out of `n`
attempts, `k` identical trades and `k` BUY/SELL records are appended, the
count rises by `k`, and the rate-limit fields are set exactly when some
order succeeded. -/
theorem enterContracts_eq (ok : Nat → Bool) (isLong : Bool) (level : ℚ) (levelIdx : Nat) :
    ∀ (n : Nat) (s : StrategyState) (cnt : Nat),
    enterContracts ok isLong level levelIdx n (s, cnt) =
      ({ s with
          position := if 0 < succCount ok cnt n then some isLong else s.position
          tradeHistory := s.tradeHistory ++ List.replicate (succCount ok cnt n)
            (specEntryRecord isLong s.index s.price)
          openTradeList := s.openTradeList ++ List.replicate (succCount ok cnt n)
            (specEntryTrade isLong level s.index s.price s.stopLossOffset s.takeProfitOffset)
          openTradeCount := s.openTradeCount + (succCount ok cnt n : Int)
          currentCashValue := s.currentCashValue -
            (succCount ok cnt n : ℚ) * (s.price * (1/10) * 4 * (25/2))
          entriesThisBar := if 0 < succCount ok cnt n then insertL levelIdx s.entriesThisBar
            else s.entriesThisBar
          lastEntryTime := if 0 < succCount ok cnt n then some s.index
            else s.lastEntryTime },
       cnt + n) := by
  intro n
  induction n with
  | zero =>
    intro s cnt
    simp [enterContracts, succCount]
  | succ n ih =>
    intro s cnt
    rw [enterContracts]
    by_cases h : ok cnt
    · simp only [h, if_true]
      rw [ih]
      have hsucc : succCount ok cnt (n + 1) = succCount ok (cnt + 1) n + 1 := by
        simp [succCount, h, Nat.add_comm]
      simp only [hsucc, Prod.mk.injEq]
      refine ⟨?_, by omega⟩
      simp only [StrategyState.mk.injEq]
      repeat' apply And.intro
      all_goals try rfl
      all_goals try (push_cast; ring)
      all_goals try (split_ifs <;>
            first
              | rfl
              | (exfalso; omega)
              | (simp [insertL_insertL]; done))
      all_goals (simp [List.replicate_succ, List.replicate_add, List.replicate_one,
            List.append_assoc, specEntryRecord, specEntryTrade]; done)
    · simp only [h, if_false]
      rw [ih]
      have hsucc : succCount ok cnt (n + 1) = succCount ok (cnt + 1) n := by
        simp [succCount, h]
      simp only [hsucc, Prod.mk.injEq]
      exact ⟨rfl, by omega⟩

/-- Condition 5 of the LONG rule: `last_entry_time` unset, or at least
5 minutes of bar time since the last entry. -/
def specIntervalOk (s : StrategyState) : Prop :=
  ∀ t ∈ s.lastEntryTime, minEntryIntervalSec ≤ (s.index : Int) - (t : Int)

instance (s : StrategyState) : Decidable (specIntervalOk s) := by
  unfold specIntervalOk
  cases s.lastEntryTime with
  | none => exact isTrue (by simp)
  | some t => exact decidable_of_iff (minEntryIntervalSec ≤ (s.index : Int) - (t : Int)) (by simp)

/-- The minimum-interval gate does not block exactly when
`specIntervalOk` holds. -/
theorem entryBlocked_eq_false_iff (s : StrategyState) :
    entryBlocked s = false ↔ specIntervalOk s := by
  unfold entryBlocked specIntervalOk
  cases s.lastEntryTime with
  | none => simp
  | some t => simp <;> omega

/-- The five conditions of the claim-C2 LONG entry rule for the level at
ladder index `i = indexOf level`:
1. `close ≤ L + entry_offset < prev_close`;
2. `i + re_entry_distance` is a valid ladder index;
3. the annotation there is DOWN;
4. `i` has not already been entered this bar;
5. at least 5 minutes since the last entry (or none yet). -/
def specLongEntryConditions (s : StrategyState) (level : ℚ) : Prop :=
  (s.price ≤ level + s.entryOffset ∧ level + s.entryOffset < s.lastPrice) ∧
  (0 ≤ (s.staticLevels.indexOf level : Int) + s.reEntryDistance ∧
    (s.staticLevels.indexOf level : Int) + s.reEntryDistance < (s.staticLevels.length : Int)) ∧
  retraceGet s.retraceLevels ((s.staticLevels.indexOf level : Int) + s.reEntryDistance).toNat =
    some Direction.down ∧
  s.staticLevels.indexOf level ∉ s.entriesThisBar ∧
  specIntervalOk s

instance (s : StrategyState) (level : ℚ) : Decidable (specLongEntryConditions s level) := by
  unfold specLongEntryConditions; infer_instance

/-- The strategy state after a fired long entry at `level`, as claim C2
describes it: the armed annotation is cleared, and one trade, one BUY
record, the bar-level marker and the entry clock are recorded for each
successful broker order. -/
def specLongEntryResult (ok : Nat → Bool) (s : StrategyState) (cnt : Nat) (level : ℚ) :
    StrategyState :=
  let i := s.staticLevels.indexOf level
  let reIdx := ((i : Int) + s.reEntryDistance).toNat
  let k := succCount ok cnt s.maxContractsPerTrade
  { s with
    retraceLevels := retraceSet s.retraceLevels reIdx none
    position := if 0 < k then some true else s.position
    tradeHistory := s.tradeHistory ++ List.replicate k (specEntryRecord true s.index s.price)
    openTradeList := s.openTradeList ++
      List.replicate k (specEntryTrade true level s.index s.price s.stopLossOffset s.takeProfitOffset)
    openTradeCount := s.openTradeCount + (k : Int)
    currentCashValue := s.currentCashValue - (k : ℚ) * (s.price * (1/10) * 4 * (25/2))
    entriesThisBar := if 0 < k then insertL i s.entriesThisBar else s.entriesThisBar
    lastEntryTime := if 0 < k then some s.index else s.lastEntryTime }

/-- **C2.** With the ladder's annotation table in its invariant shape
(`load_static_levels` makes it as long as the ladder), the phase-D step of
`run_buy_strategy` for a ladder level fires exactly when the five LONG
conditions hold, and on firing clears the armed annotation and appends
one trade, one BUY record (pnl 0), the per-bar marker and the entry clock
per successful broker order; when any condition fails it leaves the state
untouched.  (`run_buy_strategy` runs this step only when
`open_trade_count < max_open_trades`.) -/
theorem C2_long_entry_rule (ok : Nat → Bool) (s : StrategyState) (cnt : Nat) (level : ℚ)
    (hlen : s.retraceLevels.length = s.staticLevels.length) :
    (specLongEntryConditions s level →
      buyEntryStep ok (s, cnt) level =
        (specLongEntryResult ok s cnt level, cnt + s.maxContractsPerTrade)) ∧
    (¬ specLongEntryConditions s level → buyEntryStep ok (s, cnt) level = (s, cnt)) := by
  constructor
  · intro h
    obtain ⟨h1, h2, h3, h4, h5⟩ := h
    have e2 : (0 ≤ (s.staticLevels.indexOf level : Int) + s.reEntryDistance ∧
        (s.staticLevels.indexOf level : Int) + s.reEntryDistance <
          (s.retraceLevels.length : Int)) := by
      rw [hlen]; exact h2
    unfold buyEntryStep
    simp only
    rw [if_pos (by simp only [Bool.and_eq_true, decide_eq_true_eq]; exact ⟨⟨h1, e2⟩, e2, h3⟩)]
    rw [if_neg h4, if_neg (by rw [Bool.not_eq_true, entryBlocked_eq_false_iff]; exact h5)]
    rw [enterContracts_eq]
    unfold specLongEntryResult
    rfl
  · intro h
    unfold buyEntryStep
    simp only
    split
    case isTrue hA =>
      simp only [Bool.and_eq_true, decide_eq_true_eq] at hA
      obtain ⟨⟨hc1, hc2⟩, _, hc3⟩ := hA
      split
      case isTrue hB => rfl
      case isFalse hB =>
        split
        case isTrue hC => rfl
        case isFalse hC =>
          exfalso
          apply h
          refine ⟨hc1, ?_, hc3, hB, ?_⟩
          · rw [← hlen]; exact hc2
          · rw [← entryBlocked_eq_false_iff]
            simpa using hC
    case isFalse hA => rfl

/-- Reading back a freshly set annotation. -/
theorem retraceGet_set_self (r : List (Option Direction)) (i : Nat) (v : Option Direction)
    (h : i < r.length) : retraceGet (retraceSet r i v) i = v := by
  unfold retraceGet retraceSet
  rw [List.getD_eq_getElem _ _ (by simpa using h)]
  simp

/-- Setting one annotation leaves the others alone. -/
theorem retraceGet_set_ne (r : List (Option Direction)) (i j : Nat) (v : Option Direction)
    (h : i ≠ j) : retraceGet (retraceSet r i v) j = retraceGet r j := by
  unfold retraceGet retraceSet
  by_cases hj : j < r.length
  · rw [List.getD_eq_getElem _ _ (by simpa using hj), List.getD_eq_getElem _ _ hj]
    simp [List.getElem_set_ne h]
  · rw [List.getD_eq_default _ _ (by simp; omega), List.getD_eq_default _ _ (by omega)]

/-- A neutral concrete strategy state used by the concrete witnesses and
counterexamples; individual fields are overridden per scenario. -/
def baseState : StrategyState where
  entryOffset := 1
  takeProfitOffset := 10
  stopLossOffset := 5
  trailTrigger := 2
  reEntryDistance := 1
  maxOpenTrades := 1
  maxContractsPerTrade := 1
  symbolSize := 50
  isTradingLong := true
  useTradingHours := false
  earlyCloseCalendar := []
  staticLevels := [100, 105, 110, 115]
  position := none
  tradeHistory := []
  currentCashValue := 0
  openTradeCount := 0
  openTradeList := []
  retraceLevels := [none, some Direction.down, none, none]
  totalPnl := 0
  cumulativePnl := []
  winrate := 0
  avgWinner := 0
  avgLoser := 0
  totalTrade := 0
  rewardToRisk := 0
  maxLosingStreak := 0
  price := 101
  lastPrice := 102
  highPrice := 102
  lowPrice := 101
  index := 600
  positionsFlattenedToday := false
  lastFlattenDate := none
  entriesThisBar := []
  lastBarIndex := none
  lastEntryTime := none

unseal Rat.add Rat.sub Rat.mul Rat.inv in
/-- Witness for C2: at a concrete armed state the five conditions hold
and the entry step fires with the described effects. -/
theorem C2_long_entry_rule_witness :
    specLongEntryConditions baseState 100 ∧
    buyEntryStep (fun _ => true) (baseState, 0) 100 =
      (specLongEntryResult (fun _ => true) baseState 0 100,
        0 + baseState.maxContractsPerTrade) :=
  ⟨by decide, (C2_long_entry_rule (fun _ => true) baseState 0 100 (by decide)).1 (by decide)⟩

/-- The phase-C annotation value claim C3 predicts at ladder index `i`,
with DOWN checked before UP. -/
def specMarkDownFirst (s : StrategyState) (level : ℚ) (i : Nat) : Option Direction :=
  if s.price ≤ level ∧ level < s.highPrice then some Direction.down
  else if s.price ≥ level ∧ level > s.lowPrice then some Direction.up
  else retraceGet s.retraceLevels i

/-- The same with UP checked before DOWN. -/
def specMarkUpFirst (s : StrategyState) (level : ℚ) (i : Nat) : Option Direction :=
  if s.price ≥ level ∧ level > s.lowPrice then some Direction.up
  else if s.price ≤ level ∧ level < s.highPrice then some Direction.down
  else retraceGet s.retraceLevels i

/-- **C3 (amended).** For a duplicate-free ladder and the annotation
table in its invariant shape, the phase-C rule sets annotation `i` to
DOWN when `close ≤ L < high`, to UP when `close ≥ L > low`, and leaves it
unchanged otherwise — in particular a bar that merely touches `L`
(`high = L` or `low = L`) does not set it; but when both conditions hold
at once (`close = L` with `low < L < high`), the long-only strategy
resolves to DOWN while the short-only strategy resolves to UP. -/
theorem C3_annotation_rule (s : StrategyState) (i : Nat) (hi : i < s.staticLevels.length)
    (hnd : s.staticLevels.Nodup) (hlen : s.retraceLevels.length = s.staticLevels.length) :
    retraceGet (annotateBuyStep s (s.staticLevels.get ⟨i, hi⟩)).retraceLevels i =
      specMarkDownFirst s (s.staticLevels.get ⟨i, hi⟩) i ∧
    retraceGet (annotateSellStep s (s.staticLevels.get ⟨i, hi⟩)).retraceLevels i =
      specMarkUpFirst s (s.staticLevels.get ⟨i, hi⟩) i := by
  have hidx : s.staticLevels.indexOf (s.staticLevels.get ⟨i, hi⟩) = i := by
    simpa using List.indexOf_getElem hnd i hi
  have hir : i < s.retraceLevels.length := by rw [hlen]; exact hi
  constructor
  · unfold annotateBuyStep specMarkDownFirst
    rw [hidx]
    split_ifs <;> simp [retraceGet_set_self _ _ _ hir]
  · unfold annotateSellStep specMarkUpFirst
    rw [hidx]
    split_ifs <;> simp [retraceGet_set_self _ _ _ hir]

unseal Rat.add Rat.sub Rat.mul Rat.inv in
/-- Witness for the amended C3 at a concrete bar. -/
theorem C3_annotation_rule_witness :
    ((3 : Nat) < baseState.staticLevels.length ∧ baseState.staticLevels.Nodup ∧
      baseState.retraceLevels.length = baseState.staticLevels.length) ∧
    retraceGet (annotateBuyStep baseState (baseState.staticLevels.get ⟨3, by decide⟩)).retraceLevels 3 =
      specMarkDownFirst baseState (baseState.staticLevels.get ⟨3, by decide⟩) 3 :=
  ⟨⟨by decide, by decide, by decide⟩,
   (C3_annotation_rule baseState 3 (by decide) (by decide) (by decide)).1⟩

/-- A bar with `close = L = 100`, `low = 99 < L < high = 101`: both
phase-C conditions hold simultaneously. -/
def c3TouchState : StrategyState :=
  { baseState with
    price := 100
    highPrice := 101
    lowPrice := 99
    staticLevels := [100]
    retraceLevels := [none] }

unseal Rat.add Rat.sub Rat.mul Rat.inv in
/-- Counterexample to C3 as stated: on a bar with `close = L`,
`low < L < high`, the short-only strategy's phase C marks the level UP,
not DOWN, even though `close ≤ L < high` holds. -/
theorem C3_sell_down_precedence_counterexample :
    (c3TouchState.price ≤ 100 ∧ (100 : ℚ) < c3TouchState.highPrice) ∧
    retraceGet (annotateSellStep c3TouchState 100).retraceLevels 0 = some Direction.up := by
  refine ⟨by decide, by decide⟩

/-- A long open trade whose triggering level is the third-highest rung of
the four-level base ladder (`j = 2`), trailing stop not yet armed. -/
def c4Trade : Trade where
  tradeTime := 0
  entryPrice := 110
  stopLevel := 105
  trailingStop := none
  tradedLevel := 110
  takeProfitLevel := 120

unseal Rat.add Rat.sub Rat.mul Rat.inv in
/-- **C4 (code bug).** With `trail_trigger = 2`, ladder
`[100, 105, 110, 115]` and a long trade triggered at level 110 (`j = 2`):
the claim's fatal condition `j + trail_trigger ≥ len(ladder)` holds, yet
the code's guard `len(ladder) - 2 < j` does not fire, and the subsequent
access `ladder[j + trail_trigger]` goes out of range (an `IndexError`
rather than the intended internal error). -/
theorem C4_long_guard_gap :
    baseState.staticLevels.indexOf c4Trade.tradedLevel + baseState.trailTrigger ≥
      baseState.staticLevels.length ∧
    ¬ ((baseState.staticLevels.length : Int) - 2 <
        (baseState.staticLevels.indexOf c4Trade.tradedLevel : Int)) ∧
    checkOneTrade baseState c4Trade = Except.error "IndexError" :=
  ⟨by decide, by decide, by decide⟩

/-- **C8.** During exit evaluation of one open trade, a non-null trailing
stop only ratchets: upward for a long trade
(`max(trailing_stop, close − stop_loss_offset)`), downward for a short
one. -/
theorem C8_trailing_stop_monotone (s : StrategyState) (tr : Trade) (v : ℚ)
    (hts : tr.trailingStop = some v) {s' : StrategyState} {tr' : Trade} {r : Option Trade}
    (hrun : checkOneTrade s tr = Except.ok (s', tr', r)) :
    ∃ v', tr'.trailingStop = some v' ∧
      (tr.entryPrice < tr.takeProfitLevel → v ≤ v') ∧
      (¬ tr.entryPrice < tr.takeProfitLevel → v' ≤ v) := by
  unfold checkOneTrade at hrun
  split at hrun
  · rename_i hlong
    have harm : armTrailingLong s tr = Except.ok tr := by
      unfold armTrailingLong; rw [hts]
    have hrat : ratchetLong s tr =
        { tr with trailingStop := some (max v (s.price - s.stopLossOffset)) } := by
      unfold ratchetLong; rw [hts]
    rw [harm] at hrun
    simp only [hrat] at hrun
    split at hrun <;>
      · simp only [Except.ok.injEq, Prod.mk.injEq] at hrun
        obtain ⟨-, htr', -⟩ := hrun
        refine ⟨max v (s.price - s.stopLossOffset), ?_, fun _ => le_max_left _ _,
          fun hc => absurd hlong hc⟩
        rw [← htr']
  · rename_i hlong
    have harm : armTrailingShort s tr = Except.ok tr := by
      unfold armTrailingShort; rw [hts]
    have hrat : ratchetShort s tr =
        { tr with trailingStop := some (min v (s.price + s.stopLossOffset)) } := by
      unfold ratchetShort; rw [hts]
    rw [harm] at hrun
    simp only [hrat] at hrun
    split at hrun <;>
      · simp only [Except.ok.injEq, Prod.mk.injEq] at hrun
        obtain ⟨-, htr', -⟩ := hrun
        refine ⟨min v (s.price + s.stopLossOffset), ?_, fun hc => absurd hc hlong,
          fun _ => min_le_left _ _⟩
        rw [← htr']

/-- A long open trade with an armed trailing stop at 98. -/
def c8Trade : Trade where
  tradeTime := 0
  entryPrice := 101
  stopLevel := 96
  trailingStop := some 98
  tradedLevel := 110
  takeProfitLevel := 111

/-- `c8Trade` after one exit-evaluation step at close 101:
the trailing stop stays `max 98 (101 - 5) = 98`. -/
def c8ResTrade : Trade where
  tradeTime := 0
  entryPrice := 101
  stopLevel := 96
  trailingStop := some 98
  tradedLevel := 110
  takeProfitLevel := 111

unseal Rat.add Rat.sub Rat.mul Rat.inv in
/-- Witness for C8 at a concrete long trade. -/
theorem C8_trailing_stop_monotone_witness :
    c8Trade.trailingStop = some 98 ∧
    ∃ v', c8ResTrade.trailingStop = some v' ∧
      (c8Trade.entryPrice < c8Trade.takeProfitLevel → 98 ≤ v') ∧
      (¬ c8Trade.entryPrice < c8Trade.takeProfitLevel → v' ≤ 98) :=
  ⟨rfl, C8_trailing_stop_monotone baseState c8Trade 98 rfl
    (by decide : checkOneTrade baseState c8Trade = Except.ok (baseState, c8ResTrade, none))⟩

/-- **C9 (amended).** `receive_signal` has no exception handling around
the per-strategy updates: when the first strategy's `update` raises, the
whole handler fails with that error — the remaining strategy is not
updated for that bar, and `last_price` keeps its previous value because
the `last_price = signal.close` assignment is never reached. -/
theorem C9_error_aborts_dispatch {σ₁ σ₂ ε : Type}
    (upd1 : σ₁ → ℚ → ℚ → ℚ → ℚ → Except ε σ₁)
    (upd2 : σ₂ → ℚ → ℚ → ℚ → ℚ → Except ε σ₂)
    (d : Dispatcher σ₁ σ₂) (sig : Signal) (lp : ℚ) (e : ε)
    (hlp : d.lastPrice = some lp)
    (herr : upd1 d.strat1 sig.close lp sig.high sig.low = Except.error e) :
    receiveSignal upd1 upd2 d sig = Except.error e := by
  unfold receiveSignal
  rw [hlp]
  simp only [herr]
  rfl

/-- Witness for the amended C9 at concrete updates. -/
theorem C9_error_aborts_dispatch_witness :
    (Dispatcher.mk 0 0 (some 5) : Dispatcher Nat Nat).lastPrice = some 5 ∧
    receiveSignal (fun (_ : Nat) (_ _ _ _ : ℚ) => (Except.error () : Except Unit Nat))
      (fun (n : Nat) (_ _ _ _ : ℚ) => (Except.ok (n + 1) : Except Unit Nat))
      (Dispatcher.mk 0 0 (some 5)) (Signal.mk 1 3 0 2) = Except.error () :=
  ⟨rfl, C9_error_aborts_dispatch _ _ _ _ 5 () rfl rfl⟩

/-- Counterexample to C9 as stated: with `last_price = 7` set and the
first strategy's update raising on the bar `{open 2, high 4, low 1,
close 3}`, the dispatch returns the error — no dispatcher state in which
the sibling strategy was updated (or `last_price` advanced) exists. -/
theorem C9_sibling_not_isolated_counterexample :
    receiveSignal (fun (_ : Nat) (_ _ _ _ : ℚ) => (Except.error "boom" : Except String Nat))
      (fun (n : Nat) (_ _ _ _ : ℚ) => (Except.ok (n + 41) : Except String Nat))
      (Dispatcher.mk 0 1 (some 7)) (Signal.mk 2 4 1 3) = Except.error "boom" := rfl

/-- The invariant of claim C5: the redundant counter equals the length of
the authoritative list. -/
def specCountSync (s : StrategyState) : Prop :=
  s.openTradeCount = (s.openTradeList.length : Int)

instance (s : StrategyState) : Decidable (specCountSync s) := by
  unfold specCountSync; infer_instance

/-- `List.erase` never lengthens a list. -/
theorem length_erase_le {α : Type} [BEq α] (a : α) (l : List α) :
    (l.erase a).length ≤ l.length := by
  induction l with
  | nil => simp
  | cons b t ih =>
    by_cases h : b == a
    · simp [List.erase_cons, h]
    · simp only [List.erase_cons, h]
      simpa using Nat.succ_le_succ ih

/-- Erasing a batch of elements never lengthens a list. -/
theorem foldl_erase_length_le {α : Type} [BEq α] (rem : List α) :
    ∀ l : List α, (rem.foldl (fun l r => l.erase r) l).length ≤ l.length := by
  induction rem with
  | nil => simp
  | cons r t ih =>
    intro l
    calc (t.foldl (fun l r => l.erase r) (l.erase r)).length
        ≤ (l.erase r).length := ih _
      _ ≤ l.length := length_erase_le r l

/-- What a single exit-evaluation step does to the strategy state: the
list is untouched (removals are deferred), at most one EXIT record and
one cumulative point are appended, the counter drops by one exactly when
the trade is collected for removal, and every other field — in
particular the bar data, the trading-hours flags and the parameters — is
unchanged. -/
theorem checkOneTrade_facts {s s' : StrategyState} {tr tr' : Trade} {r : Option Trade}
    (h : checkOneTrade s tr = Except.ok (s', tr', r)) :
    (∃ hl, s'.tradeHistory = s.tradeHistory ++ hl ∧
      ∀ rec ∈ hl, rec.kind = TradeKind.EXIT) ∧
    s'.openTradeList = s.openTradeList ∧
    s'.openTradeCount = s.openTradeCount - (r.toList.length : Int) ∧
    s'.price = s.price ∧ s'.index = s.index ∧
    s'.lastPrice = s.lastPrice ∧ s'.highPrice = s.highPrice ∧ s'.lowPrice = s.lowPrice ∧
    s'.positionsFlattenedToday = s.positionsFlattenedToday ∧
    s'.lastFlattenDate = s.lastFlattenDate ∧
    s'.useTradingHours = s.useTradingHours ∧
    s'.earlyCloseCalendar = s.earlyCloseCalendar ∧
    s'.isTradingLong = s.isTradingLong ∧
    s'.maxOpenTrades = s.maxOpenTrades ∧
    s'.maxContractsPerTrade = s.maxContractsPerTrade ∧
    s'.staticLevels = s.staticLevels ∧
    s'.retraceLevels = s.retraceLevels ∧
    s'.entriesThisBar = s.entriesThisBar ∧
    s'.lastBarIndex = s.lastBarIndex ∧
    s'.lastEntryTime = s.lastEntryTime := by
  unfold checkOneTrade at h
  split at h <;>
  · split at h
    · exact absurd h (by simp)
    · dsimp only at h
      split at h <;>
          simp only [Except.ok.injEq, Prod.mk.injEq] at h <;>
            obtain ⟨hs, -, hr⟩ := h <;>
              subst hs <;> subst hr
      · refine ⟨⟨_, rfl, ?_⟩, ?_⟩
        · simp [exitTradeState]
        · simp [exitTradeState]
      · exact ⟨⟨[], by simp, by simp⟩, by simp⟩

/-- `Except.error e >>= f = Except.error e`. -/
theorem exceptErrorBind {ε α β : Type} (e : ε) (f : α → Except ε β) :
    (Except.error e >>= f : Except ε β) = Except.error e := rfl

/-- `Except.ok a >>= f = f a`. -/
theorem exceptOkBind {ε α β : Type} (a : α) (f : α → Except ε β) :
    (Except.ok a >>= f : Except ε β) = f a := rfl

/-- What the whole exit-evaluation loop does to the state, by composing
`checkOneTrade_facts` along the list: EXIT-only history growth, untouched
trade list (removals still deferred), counter decremented once per
collected removal, processed list of the same length, and all other
fields preserved. -/
theorem processTrades_facts {s : StrategyState} :
    ∀ {l : List Trade} {s' : StrategyState} {l2 rem : List Trade},
    processTrades s l = Except.ok (s', l2, rem) →
    (∃ hl, s'.tradeHistory = s.tradeHistory ++ hl ∧
      ∀ rec ∈ hl, rec.kind = TradeKind.EXIT) ∧
    s'.openTradeList = s.openTradeList ∧
    s'.openTradeCount = s.openTradeCount - (rem.length : Int) ∧
    l2.length = l.length ∧
    s'.price = s.price ∧ s'.index = s.index ∧
    s'.lastPrice = s.lastPrice ∧ s'.highPrice = s.highPrice ∧ s'.lowPrice = s.lowPrice ∧
    s'.positionsFlattenedToday = s.positionsFlattenedToday ∧
    s'.lastFlattenDate = s.lastFlattenDate ∧
    s'.useTradingHours = s.useTradingHours ∧
    s'.earlyCloseCalendar = s.earlyCloseCalendar ∧
    s'.isTradingLong = s.isTradingLong ∧
    s'.maxOpenTrades = s.maxOpenTrades ∧
    s'.maxContractsPerTrade = s.maxContractsPerTrade ∧
    s'.staticLevels = s.staticLevels ∧
    s'.retraceLevels = s.retraceLevels ∧
    s'.entriesThisBar = s.entriesThisBar ∧
    s'.lastBarIndex = s.lastBarIndex ∧
    s'.lastEntryTime = s.lastEntryTime := by
  intro l
  induction l generalizing s with
  | nil =>
    intro s' l2 rem h
    unfold processTrades at h
    simp only [Except.ok.injEq, Prod.mk.injEq] at h
    obtain ⟨hs, hl2, hrem⟩ := h
    subst hs; subst hl2; subst hrem
    exact ⟨⟨[], by simp, by simp⟩, by simp⟩
  | cons tr rest ih =>
    intro s' l2 rem h
    unfold processTrades at h
    cases h1 : checkOneTrade s tr with
    | error e => rw [h1] at h; rw [exceptErrorBind] at h; exact absurd h (by simp)
    | ok out =>
      obtain ⟨s1, tr1, r1⟩ := out
      rw [h1] at h
      rw [exceptOkBind] at h
      simp only at h
      cases h2 : processTrades s1 rest with
      | error e => rw [h2] at h; rw [exceptErrorBind] at h; exact absurd h (by simp)
      | ok out2 =>
        obtain ⟨s2, l2', rem'⟩ := out2
        rw [h2] at h
        rw [exceptOkBind] at h
        simp only [Except.ok.injEq, Prod.mk.injEq] at h
        obtain ⟨hs, hl2, hrem⟩ := h
        subst hs; subst hl2; subst hrem
        obtain ⟨⟨hlA, hhA, hkA⟩, hA⟩ := checkOneTrade_facts h1
        obtain ⟨⟨hlB, hhB, hkB⟩, hB⟩ := ih h2
        refine ⟨⟨hlA ++ hlB, ?_, ?_⟩, ?_⟩
        · rw [hhB, hhA, List.append_assoc]
        · intro rec hrec
          rcases List.mem_append.mp hrec with hx | hx
          · exact hkA rec hx
          · exact hkB rec hx
        · obtain ⟨e1, e2, e3, e4, e5, e6, e7, e8, e9, e10, e11, e12, e13, e14, e15, e16, e17, e18⟩ := hA
          obtain ⟨f1, f2, f3, f4, f5, f6, f7, f8, f9, f10, f11, f12, f13, f14, f15, f16, f17, f18⟩ := hB
          refine ⟨by rw [f1, e1], by rw [f2, e2]; push_cast [List.length_append]; ring,
            by simp [f3], ?_⟩
          simp_all

/-- What `check_trade_to_remove` does to the state: EXIT-only history
growth; whenever the body ran (`open_trade_count > 0`) the final
reconciliation leaves the counter equal to the list length; the C5
invariant is preserved and the counter never grows under it; everything
else except the trade list and counter is untouched. -/
theorem checkTradeToRemove_facts {s s' : StrategyState}
    (h : checkTradeToRemove s = Except.ok s') :
    (∃ hl, s'.tradeHistory = s.tradeHistory ++ hl ∧
      ∀ rec ∈ hl, rec.kind = TradeKind.EXIT) ∧
    (0 < s.openTradeCount → s'.openTradeCount = (s'.openTradeList.length : Int)) ∧
    (specCountSync s → specCountSync s') ∧
    (specCountSync s → s'.openTradeCount ≤ s.openTradeCount) ∧
    s'.price = s.price ∧ s'.index = s.index ∧
    s'.lastPrice = s.lastPrice ∧ s'.highPrice = s.highPrice ∧ s'.lowPrice = s.lowPrice ∧
    s'.positionsFlattenedToday = s.positionsFlattenedToday ∧
    s'.lastFlattenDate = s.lastFlattenDate ∧
    s'.useTradingHours = s.useTradingHours ∧
    s'.earlyCloseCalendar = s.earlyCloseCalendar ∧
    s'.isTradingLong = s.isTradingLong ∧
    s'.maxOpenTrades = s.maxOpenTrades ∧
    s'.maxContractsPerTrade = s.maxContractsPerTrade ∧
    s'.staticLevels = s.staticLevels ∧
    s'.retraceLevels = s.retraceLevels ∧
    s'.entriesThisBar = s.entriesThisBar ∧
    s'.lastBarIndex = s.lastBarIndex ∧
    s'.lastEntryTime = s.lastEntryTime := by
  unfold checkTradeToRemove at h
  split at h
  · rename_i hpos
    cases hp : processTrades s s.openTradeList with
    | error e => rw [hp] at h; rw [exceptErrorBind] at h; exact absurd h (by simp)
    | ok out =>
      obtain ⟨s1, l2, rem⟩ := out
      rw [hp] at h
      rw [exceptOkBind] at h
      simp only [Except.ok.injEq] at h
      obtain ⟨⟨hl, hh, hk⟩, hlist, hcount, hlen, e1, e2, e3, e4, e5, e6, e7, e8, e9,
        e10, e11, e12, e13, e14, e15, e16, e17⟩ := processTrades_facts hp
      set finalList := rem.foldl (fun l r => l.erase r) l2 with hfin
      have hfl : finalList.length ≤ s.openTradeList.length := by
        calc finalList.length ≤ l2.length := foldl_erase_length_le rem l2
          _ = s.openTradeList.length := hlen
      have hcount' : s'.openTradeCount = (finalList.length : Int) := by
        rw [← h]
        split <;> simp_all
      have hlist' : s'.openTradeList = finalList := by
        rw [← h]
        split <;> rfl
      refine ⟨⟨hl, ?_, hk⟩, ?_, ?_, ?_, ?_⟩
      · rw [← h]; split <;> simpa using hh
      · intro _; rw [hcount', hlist']
      · intro _; rw [specCountSync, hcount', hlist']
      · intro hsync
        rw [hcount']
        calc (finalList.length : Int) ≤ (s.openTradeList.length : Int) := by
              exact_mod_cast hfl
          _ = s.openTradeCount := hsync.symm
      · rw [← h]; split <;> simp_all
  · rename_i hneg
    simp only [Except.ok.injEq] at h
    subst h
    refine ⟨⟨[], by simp, by simp⟩, ?_, fun hs => hs, fun _ => le_refl _, by simp⟩
    intro hpos
    exact absurd hpos (by omega)

/-- Generic `foldl` invariant preservation. -/
theorem foldl_invariant {α β : Type} {P : β → Prop} (f : β → α → β) (l : List α)
    (hf : ∀ b a, P b → P (f b a)) : ∀ {b : β}, P b → P (l.foldl f b) := by
  induction l with
  | nil => intro b hb; exact hb
  | cons a t ih => intro b hb; exact ih (hf b a hb)

/-- The per-bar reset only touches `entries_this_bar` / `last_bar_index`. -/
theorem resetBarTracking_eq (s : StrategyState) :
    resetBarTracking s = { s with
      entriesThisBar := (resetBarTracking s).entriesThisBar
      lastBarIndex := (resetBarTracking s).lastBarIndex } := by
  unfold resetBarTracking
  split <;> rfl

/-- Phase C only touches `retrace_levels` (long side). -/
theorem annotateBuyStep_eq (s : StrategyState) (level : ℚ) :
    annotateBuyStep s level =
      { s with retraceLevels := (annotateBuyStep s level).retraceLevels } := by
  unfold annotateBuyStep
  split_ifs <;> rfl

/-- Phase C only touches `retrace_levels` (short side). -/
theorem annotateSellStep_eq (s : StrategyState) (level : ℚ) :
    annotateSellStep s level =
      { s with retraceLevels := (annotateSellStep s level).retraceLevels } := by
  unfold annotateSellStep
  split_ifs <;> rfl

/-- Every field except `retrace_levels`, bundled for the Phase C fold. -/
def nonRetraceView (s : StrategyState) :=
  (s.tradeHistory, s.openTradeCount, s.openTradeList, s.price, s.lastPrice, s.highPrice,
   s.lowPrice, s.index, s.positionsFlattenedToday, s.lastFlattenDate, s.maxOpenTrades,
   s.maxContractsPerTrade, s.staticLevels, s.entriesThisBar, s.lastBarIndex, s.lastEntryTime,
   s.useTradingHours, s.earlyCloseCalendar, s.isTradingLong, s.symbolSize, s.entryOffset,
   s.stopLossOffset, s.takeProfitOffset, s.reEntryDistance, s.position, s.cumulativePnl,
   s.totalPnl, s.currentCashValue, s.retraceLevels.length)

/-- A fold of retrace-only steps changes no other field, nor the
annotation table's length. -/
theorem foldl_retrace_view (g : StrategyState → ℚ → StrategyState)
    (hg : ∀ s a, g s a = { s with retraceLevels := (g s a).retraceLevels })
    (hlen : ∀ s a, (g s a).retraceLevels.length = s.retraceLevels.length) (l : List ℚ) :
    ∀ s : StrategyState, nonRetraceView (l.foldl g s) = nonRetraceView s := by
  induction l with
  | nil => intro s; rfl
  | cons a t ih =>
    intro s
    show nonRetraceView (t.foldl g (g s a)) = _
    rw [ih (g s a)]
    conv_lhs => rw [nonRetraceView, hlen s a, hg s a]
    rfl

/-- Phase C keeps the annotation table's length (long side). -/
theorem annotateBuyStep_len (s : StrategyState) (level : ℚ) :
    (annotateBuyStep s level).retraceLevels.length = s.retraceLevels.length := by
  unfold annotateBuyStep retraceSet
  split_ifs <;> simp

/-- Phase C keeps the annotation table's length (short side). -/
theorem annotateSellStep_len (s : StrategyState) (level : ℚ) :
    (annotateSellStep s level).retraceLevels.length = s.retraceLevels.length := by
  unfold annotateSellStep retraceSet
  split_ifs <;> simp

/-- The fields phase D never writes. -/
def entryPreservedView (s : StrategyState) :=
  (s.price, s.lastPrice, s.highPrice, s.lowPrice, s.index, s.positionsFlattenedToday,
   s.lastFlattenDate, s.maxOpenTrades, s.maxContractsPerTrade, s.staticLevels,
   s.useTradingHours, s.earlyCloseCalendar, s.isTradingLong, s.symbolSize, s.lastBarIndex)

/-- A phase-D step writes none of the `entryPreservedView` fields. -/
theorem buyEntryStep_view (ok : Nat → Bool) (acc : StrategyState × Nat) (level : ℚ) :
    entryPreservedView (buyEntryStep ok acc level).1 = entryPreservedView acc.1 := by
  obtain ⟨s, cnt⟩ := acc
  unfold buyEntryStep
  simp only
  split
  · split
    · rfl
    · split
      · rfl
      · rw [enterContracts_eq]
        rfl
  · rfl

/-- Same for the short side. -/
theorem sellEntryStep_view (ok : Nat → Bool) (acc : StrategyState × Nat) (level : ℚ) :
    entryPreservedView (sellEntryStep ok acc level).1 = entryPreservedView acc.1 := by
  obtain ⟨s, cnt⟩ := acc
  unfold sellEntryStep
  simp only
  split
  · split
    · rfl
    · split
      · rfl
      · rw [enterContracts_eq]
        rfl
  · rfl

/-- A phase-D step preserves the count/list invariant. -/
theorem buyEntryStep_sync (ok : Nat → Bool) (acc : StrategyState × Nat) (level : ℚ)
    (h : specCountSync acc.1) : specCountSync (buyEntryStep ok acc level).1 := by
  obtain ⟨s, cnt⟩ := acc
  unfold buyEntryStep
  simp only
  split
  · split
    · exact h
    · split
      · exact h
      · rw [enterContracts_eq]
        unfold specCountSync at h ⊢
        simp only [List.length_append, List.length_replicate]
        rw [h]
        push_cast
        ring
  · exact h

/-- Same for the short side. -/
theorem sellEntryStep_sync (ok : Nat → Bool) (acc : StrategyState × Nat) (level : ℚ)
    (h : specCountSync acc.1) : specCountSync (sellEntryStep ok acc level).1 := by
  obtain ⟨s, cnt⟩ := acc
  unfold sellEntryStep
  simp only
  split
  · split
    · exact h
    · split
      · exact h
      · rw [enterContracts_eq]
        unfold specCountSync at h ⊢
        simp only [List.length_append, List.length_replicate]
        rw [h]
        push_cast
        ring
  · exact h

/-- A phase-D step appends only BUY records (long side). -/
theorem buyEntryStep_hist (ok : Nat → Bool) (acc : StrategyState × Nat) (level : ℚ) :
    ∃ hl, (buyEntryStep ok acc level).1.tradeHistory = acc.1.tradeHistory ++ hl ∧
      ∀ rec ∈ hl, rec.kind = TradeKind.BUY := by
  obtain ⟨s, cnt⟩ := acc
  unfold buyEntryStep
  simp only
  split
  · split
    · exact ⟨[], by simp, by simp⟩
    · split
      · exact ⟨[], by simp, by simp⟩
      · rw [enterContracts_eq]
        refine ⟨_, rfl, ?_⟩
        intro rec hrec
        rw [List.eq_of_mem_replicate hrec]
        simp [specEntryRecord]
  · exact ⟨[], by simp, by simp⟩

/-- A phase-D step appends only SELL records (short side). -/
theorem sellEntryStep_hist (ok : Nat → Bool) (acc : StrategyState × Nat) (level : ℚ) :
    ∃ hl, (sellEntryStep ok acc level).1.tradeHistory = acc.1.tradeHistory ++ hl ∧
      ∀ rec ∈ hl, rec.kind = TradeKind.SELL := by
  obtain ⟨s, cnt⟩ := acc
  unfold sellEntryStep
  simp only
  split
  · split
    · exact ⟨[], by simp, by simp⟩
    · split
      · exact ⟨[], by simp, by simp⟩
      · rw [enterContracts_eq]
        refine ⟨_, rfl, ?_⟩
        intro rec hrec
        rw [List.eq_of_mem_replicate hrec]
        simp [specEntryRecord]
  · exact ⟨[], by simp, by simp⟩

/-- What `run_buy_strategy` does to the state: BUY-only history growth,
the C5 invariant preserved, and the bar data, trading-hours flags and
risk parameters untouched. -/
theorem runBuyStrategy_facts (ok : Nat → Bool) (s : StrategyState) :
    (∃ hl, (runBuyStrategy ok s).tradeHistory = s.tradeHistory ++ hl ∧
      ∀ rec ∈ hl, rec.kind = TradeKind.BUY) ∧
    (specCountSync s → specCountSync (runBuyStrategy ok s)) ∧
    (runBuyStrategy ok s).price = s.price ∧
    (runBuyStrategy ok s).index = s.index ∧
    (runBuyStrategy ok s).positionsFlattenedToday = s.positionsFlattenedToday ∧
    (runBuyStrategy ok s).lastFlattenDate = s.lastFlattenDate ∧
    (runBuyStrategy ok s).useTradingHours = s.useTradingHours ∧
    (runBuyStrategy ok s).earlyCloseCalendar = s.earlyCloseCalendar ∧
    (runBuyStrategy ok s).maxOpenTrades = s.maxOpenTrades ∧
    (runBuyStrategy ok s).maxContractsPerTrade = s.maxContractsPerTrade := by
  unfold runBuyStrategy
  simp only
  set s1 := resetBarTracking s with hs1
  set s2 := s1.staticLevels.foldl annotateBuyStep s1 with hs2
  have hre := resetBarTracking_eq s
  have hva : nonRetraceView s2 = nonRetraceView s1 :=
    foldl_retrace_view annotateBuyStep annotateBuyStep_eq annotateBuyStep_len s1.staticLevels s1
  simp only [nonRetraceView, Prod.mk.injEq] at hva
  obtain ⟨a1, a2, a3, a4, a5, a6, a7, a8, a9, a10, a11, a12, a13, a14, a15, a16, a17, a18,
    a19, a20, a21, a22, a23, a24, a25, a26, a27, a28, a29⟩ := hva
  have hist1 : s1.tradeHistory = s.tradeHistory := by rw [hs1, hre]
  have hcl1 : s1.openTradeCount = s.openTradeCount ∧ s1.openTradeList = s.openTradeList := by
    rw [hs1, hre]; exact ⟨rfl, rfl⟩
  have hf1 : s1.price = s.price ∧ s1.index = s.index ∧
      s1.positionsFlattenedToday = s.positionsFlattenedToday ∧
      s1.lastFlattenDate = s.lastFlattenDate ∧ s1.useTradingHours = s.useTradingHours ∧
      s1.earlyCloseCalendar = s.earlyCloseCalendar ∧ s1.maxOpenTrades = s.maxOpenTrades ∧
      s1.maxContractsPerTrade = s.maxContractsPerTrade := by
    rw [hs1, hre]; exact ⟨rfl, rfl, rfl, rfl, rfl, rfl, rfl, rfl⟩
  have hsync2 : specCountSync s → specCountSync s2 := by
    intro hs
    unfold specCountSync at *
    rw [a2, a3, hcl1.1, hcl1.2]
    exact hs
  split
  · rename_i hroom
    have hP := foldl_invariant (buyEntryStep ok) s2.staticLevels
      (P := fun acc =>
        (∃ hl, acc.1.tradeHistory = s2.tradeHistory ++ hl ∧
          ∀ rec ∈ hl, rec.kind = TradeKind.BUY) ∧
        (specCountSync s2 → specCountSync acc.1) ∧
        entryPreservedView acc.1 = entryPreservedView s2)
      (by
        intro b a hb
        obtain ⟨⟨hl, hh, hbk⟩, hsy, hview⟩ := hb
        obtain ⟨hl2, hh2, hbk2⟩ := buyEntryStep_hist ok b a
        refine ⟨⟨hl ++ hl2, ?_, ?_⟩, fun hs => buyEntryStep_sync ok b a (hsy hs), ?_⟩
        · rw [hh2, hh, List.append_assoc]
        · intro rec hrec
          rcases List.mem_append.mp hrec with hx | hx
          · exact hbk rec hx
          · exact hbk2 rec hx
        · rw [buyEntryStep_view, hview])
      (b := (s2, 0)) ⟨⟨[], by simp, by simp⟩, fun hs => hs, rfl⟩
    obtain ⟨⟨hl, hh, hbk⟩, hsy, hview⟩ := hP
    simp only [entryPreservedView, Prod.mk.injEq] at hview
    obtain ⟨v1, v2, v3, v4, v5, v6, v7, v8, v9, v10, v11, v12, v13, v14, v15⟩ := hview
    refine ⟨⟨hl, ?_, hbk⟩, fun hs => hsy (hsync2 hs), ?_⟩
    · rw [hh, a1, hist1]
    · rw [v1, v5, v6, v7, v11, v12, v8, v9]
      exact ⟨a4.trans hf1.1, a8.trans hf1.2.1, a9.trans hf1.2.2.1, a10.trans hf1.2.2.2.1,
        a17.trans hf1.2.2.2.2.1, a18.trans hf1.2.2.2.2.2.1, a11.trans hf1.2.2.2.2.2.2.1,
        a12.trans hf1.2.2.2.2.2.2.2⟩
  · refine ⟨⟨[], by rw [a1, hist1]; simp, by simp⟩, hsync2, ?_⟩
    rw [a4, a8, a9, a10, a17, a18, a11, a12]
    exact ⟨hf1.1, hf1.2.1, hf1.2.2.1, hf1.2.2.2.1, hf1.2.2.2.2.1, hf1.2.2.2.2.2.1,
      hf1.2.2.2.2.2.2.1, hf1.2.2.2.2.2.2.2⟩

theorem runSellStrategy_facts (ok : Nat → Bool) (s : StrategyState) :
    (∃ hl, (runSellStrategy ok s).tradeHistory = s.tradeHistory ++ hl ∧
      ∀ rec ∈ hl, rec.kind = TradeKind.SELL) ∧
    (specCountSync s → specCountSync (runSellStrategy ok s)) ∧
    (runSellStrategy ok s).price = s.price ∧
    (runSellStrategy ok s).index = s.index ∧
    (runSellStrategy ok s).positionsFlattenedToday = s.positionsFlattenedToday ∧
    (runSellStrategy ok s).lastFlattenDate = s.lastFlattenDate ∧
    (runSellStrategy ok s).useTradingHours = s.useTradingHours ∧
    (runSellStrategy ok s).earlyCloseCalendar = s.earlyCloseCalendar ∧
    (runSellStrategy ok s).maxOpenTrades = s.maxOpenTrades ∧
    (runSellStrategy ok s).maxContractsPerTrade = s.maxContractsPerTrade := by
  unfold runSellStrategy
  simp only
  set s1 := resetBarTracking s with hs1
  set s2 := s1.staticLevels.foldl annotateSellStep s1 with hs2
  have hre := resetBarTracking_eq s
  have hva : nonRetraceView s2 = nonRetraceView s1 :=
    foldl_retrace_view annotateSellStep annotateSellStep_eq annotateSellStep_len s1.staticLevels s1
  simp only [nonRetraceView, Prod.mk.injEq] at hva
  obtain ⟨a1, a2, a3, a4, a5, a6, a7, a8, a9, a10, a11, a12, a13, a14, a15, a16, a17, a18,
    a19, a20, a21, a22, a23, a24, a25, a26, a27, a28, a29⟩ := hva
  have hist1 : s1.tradeHistory = s.tradeHistory := by rw [hs1, hre]
  have hcl1 : s1.openTradeCount = s.openTradeCount ∧ s1.openTradeList = s.openTradeList := by
    rw [hs1, hre]; exact ⟨rfl, rfl⟩
  have hf1 : s1.price = s.price ∧ s1.index = s.index ∧
      s1.positionsFlattenedToday = s.positionsFlattenedToday ∧
      s1.lastFlattenDate = s.lastFlattenDate ∧ s1.useTradingHours = s.useTradingHours ∧
      s1.earlyCloseCalendar = s.earlyCloseCalendar ∧ s1.maxOpenTrades = s.maxOpenTrades ∧
      s1.maxContractsPerTrade = s.maxContractsPerTrade := by
    rw [hs1, hre]; exact ⟨rfl, rfl, rfl, rfl, rfl, rfl, rfl, rfl⟩
  have hsync2 : specCountSync s → specCountSync s2 := by
    intro hs
    unfold specCountSync at *
    rw [a2, a3, hcl1.1, hcl1.2]
    exact hs
  split
  · rename_i hroom
    have hP := foldl_invariant (sellEntryStep ok) s2.staticLevels
      (P := fun acc =>
        (∃ hl, acc.1.tradeHistory = s2.tradeHistory ++ hl ∧
          ∀ rec ∈ hl, rec.kind = TradeKind.SELL) ∧
        (specCountSync s2 → specCountSync acc.1) ∧
        entryPreservedView acc.1 = entryPreservedView s2)
      (by
        intro b a hb
        obtain ⟨⟨hl, hh, hbk⟩, hsy, hview⟩ := hb
        obtain ⟨hl2, hh2, hbk2⟩ := sellEntryStep_hist ok b a
        refine ⟨⟨hl ++ hl2, ?_, ?_⟩, fun hs => sellEntryStep_sync ok b a (hsy hs), ?_⟩
        · rw [hh2, hh, List.append_assoc]
        · intro rec hrec
          rcases List.mem_append.mp hrec with hx | hx
          · exact hbk rec hx
          · exact hbk2 rec hx
        · rw [sellEntryStep_view, hview])
      (b := (s2, 0)) ⟨⟨[], by simp, by simp⟩, fun hs => hs, rfl⟩
    obtain ⟨⟨hl, hh, hbk⟩, hsy, hview⟩ := hP
    simp only [entryPreservedView, Prod.mk.injEq] at hview
    obtain ⟨v1, v2, v3, v4, v5, v6, v7, v8, v9, v10, v11, v12, v13, v14, v15⟩ := hview
    refine ⟨⟨hl, ?_, hbk⟩, fun hs => hsy (hsync2 hs), ?_⟩
    · rw [hh, a1, hist1]
    · rw [v1, v5, v6, v7, v11, v12, v8, v9]
      exact ⟨a4.trans hf1.1, a8.trans hf1.2.1, a9.trans hf1.2.2.1, a10.trans hf1.2.2.2.1,
        a17.trans hf1.2.2.2.2.1, a18.trans hf1.2.2.2.2.2.1, a11.trans hf1.2.2.2.2.2.2.1,
        a12.trans hf1.2.2.2.2.2.2.2⟩
  · refine ⟨⟨[], by rw [a1, hist1]; simp, by simp⟩, hsync2, ?_⟩
    rw [a4, a8, a9, a10, a17, a18, a11, a12]
    exact ⟨hf1.1, hf1.2.1, hf1.2.2.1, hf1.2.2.2.1, hf1.2.2.2.2.1, hf1.2.2.2.2.2.1,
      hf1.2.2.2.2.2.2.1, hf1.2.2.2.2.2.2.2⟩

/-- The FLATTEN record `flatten_all_positions` appends for one open
trade: pnl is `(close − entry) × symbol_size` for a long trade
(`entry < take_profit`), `(entry − close) × symbol_size` for a short
one. -/
def specFlattenRecord (time : Nat) (price symbolSize : ℚ) (t : Trade) : HistRecord where
  time := time
  kind := TradeKind.FLATTEN
  price := price
  pnl := if t.entryPrice < t.takeProfitLevel then (price - t.entryPrice) * symbolSize
         else (t.entryPrice - price) * symbolSize

/-- The fields the flatten loop never writes. -/
def flattenPreservedView (s : StrategyState) :=
  (s.openTradeList, s.openTradeCount, s.price, s.index, s.symbolSize,
   s.positionsFlattenedToday, s.lastFlattenDate, s.useTradingHours, s.earlyCloseCalendar,
   s.staticLevels, s.retraceLevels, s.isTradingLong, s.maxOpenTrades, s.maxContractsPerTrade,
   s.entriesThisBar, s.lastBarIndex, s.lastEntryTime, s.lastPrice, s.highPrice, s.lowPrice)

theorem foldl_flatten_view : ∀ (l : List Trade) (s : StrategyState),
    flattenPreservedView (l.foldl flattenTrade s) = flattenPreservedView s := by
  intro l
  induction l with
  | nil => intro s; rfl
  | cons t rest ih =>
    intro s
    show flattenPreservedView (rest.foldl flattenTrade (flattenTrade s t)) = _
    rw [ih (flattenTrade s t)]
    rfl

theorem foldl_flatten_hist : ∀ (l : List Trade) (s : StrategyState),
    (l.foldl flattenTrade s).tradeHistory =
      s.tradeHistory ++ l.map (specFlattenRecord s.index s.price s.symbolSize) := by
  intro l
  induction l with
  | nil => intro s; simp
  | cons t rest ih =>
    intro s
    show (rest.foldl flattenTrade (flattenTrade s t)).tradeHistory = _
    rw [ih (flattenTrade s t)]
    simp [flattenTrade, specFlattenRecord]

theorem foldl_flatten_cum : ∀ (l : List Trade) (s : StrategyState),
    (l.foldl flattenTrade s).cumulativePnl.length = s.cumulativePnl.length + l.length := by
  intro l
  induction l with
  | nil => intro s; simp
  | cons t rest ih =>
    intro s
    show (rest.foldl flattenTrade (flattenTrade s t)).cumulativePnl.length = _
    rw [ih (flattenTrade s t)]
    simp [flattenTrade]
    omega

/-- What `flatten_all_positions` does: under the C5 invariant it appends
exactly one FLATTEN record (and one cumulative-pnl point) per open trade
and empties the list and counter; unconditionally it appends only
FLATTEN records, leaves the trading-hours flags and bar data alone, and
ends with either an untouched state or a zero counter. -/
theorem flattenAllPositions_facts (s : StrategyState) :
    (specCountSync s →
      (flattenAllPositions s).tradeHistory =
        s.tradeHistory ++ s.openTradeList.map (specFlattenRecord s.index s.price s.symbolSize) ∧
      (flattenAllPositions s).openTradeList = [] ∧
      (flattenAllPositions s).openTradeCount = 0 ∧
      (flattenAllPositions s).cumulativePnl.length =
        s.cumulativePnl.length + s.openTradeList.length) ∧
    (∃ hl, (flattenAllPositions s).tradeHistory = s.tradeHistory ++ hl ∧
      ∀ rec ∈ hl, rec.kind = TradeKind.FLATTEN) ∧
    (flattenAllPositions s).positionsFlattenedToday = s.positionsFlattenedToday ∧
    (flattenAllPositions s).lastFlattenDate = s.lastFlattenDate ∧
    (flattenAllPositions s).price = s.price ∧
    (flattenAllPositions s).index = s.index ∧
    (flattenAllPositions s).useTradingHours = s.useTradingHours ∧
    (flattenAllPositions s).earlyCloseCalendar = s.earlyCloseCalendar ∧
    (specCountSync s → specCountSync (flattenAllPositions s)) ∧
    ((flattenAllPositions s).openTradeCount = 0 ∨ flattenAllPositions s = s) := by
  unfold flattenAllPositions
  split
  · rename_i hzero
    have hlist : specCountSync s → s.openTradeList = [] := by
      intro hs
      unfold specCountSync at hs
      rw [hzero] at hs
      have : s.openTradeList.length = 0 := by exact_mod_cast hs.symm
      exact List.eq_nil_of_length_eq_zero this
    refine ⟨?_, ⟨[], by simp, by simp⟩, rfl, rfl, rfl, rfl, rfl, rfl, fun hs => hs,
      Or.inr rfl⟩
    intro hs
    rw [hlist hs]
    exact ⟨by simp, rfl, hzero, by simp⟩
  · have hv := foldl_flatten_view s.openTradeList s
    simp only [flattenPreservedView, Prod.mk.injEq] at hv
    obtain ⟨w1, w2, w3, w4, w5, w6, w7, w8, w9, w10, w11, w12, w13, w14, w15, w16, w17,
      w18, w19, w20⟩ := hv
    refine ⟨?_, ⟨_, foldl_flatten_hist s.openTradeList s, ?_⟩, w6, w7, w3, w4, w8, w9,
      ?_, Or.inl rfl⟩
    · intro _
      exact ⟨foldl_flatten_hist s.openTradeList s, rfl, rfl,
        foldl_flatten_cum s.openTradeList s⟩
    · intro rec hrec
      obtain ⟨t, -, hrt⟩ := List.mem_map.mp hrec
      rw [← hrt]
      rfl
    · intro _
      unfold specCountSync
      simp

/-- BUY/SELL records — the entries the trading-hours gate must block. -/
def isEntryRecord (r : HistRecord) : Bool :=
  r.kind == TradeKind.BUY || r.kind == TradeKind.SELL

/-- The BUY/SELL subsequence of a trade history. -/
def specEntryRecords (h : List HistRecord) : List HistRecord :=
  h.filter isEntryRecord

/-- FLATTEN records. -/
def isFlattenRecord (r : HistRecord) : Bool :=
  r.kind == TradeKind.FLATTEN

/-- The FLATTEN subsequence of a trade history. -/
def specFlattenRecords (h : List HistRecord) : List HistRecord :=
  h.filter isFlattenRecord

theorem specEntryRecords_append_of_none (a hl : List HistRecord)
    (h : ∀ rec ∈ hl, rec.kind = TradeKind.EXIT ∨ rec.kind = TradeKind.FLATTEN) :
    specEntryRecords (a ++ hl) = specEntryRecords a := by
  unfold specEntryRecords
  rw [List.filter_append]
  have hnil : hl.filter isEntryRecord = [] := by
    rw [List.filter_eq_nil]
    intro rec hrec
    rcases h rec hrec with h1 | h1 <;> simp [isEntryRecord, h1]
  rw [hnil, List.append_nil]

theorem specFlattenRecords_append_of_none (a hl : List HistRecord)
    (h : ∀ rec ∈ hl, rec.kind ≠ TradeKind.FLATTEN) :
    specFlattenRecords (a ++ hl) = specFlattenRecords a := by
  unfold specFlattenRecords
  rw [List.filter_append]
  have hnil : hl.filter isFlattenRecord = [] := by
    rw [List.filter_eq_nil]
    intro rec hrec
    simp [isFlattenRecord, h rec hrec]
  rw [hnil, List.append_nil]

/-- **C5.** `update` preserves `open_trade_count == len(open_trade_list)`
on every path, and whenever the exit-evaluation body runs
(`open_trade_count > 0`) its final reconciliation step leaves the counter
equal to the list length before returning — a repair, not a failure. -/
theorem C5_count_matches_list :
    (∀ (ok : Nat → Bool) (s : StrategyState) (index : Nat) (p lp hp lo : ℚ)
        (s' : StrategyState),
      specCountSync s → update ok s index p lp hp lo = Except.ok s' → specCountSync s') ∧
    (∀ s s' : StrategyState, 0 < s.openTradeCount →
      checkTradeToRemove s = Except.ok s' →
      s'.openTradeCount = (s'.openTradeList.length : Int)) := by
  constructor
  · intro ok s index p lp hp lo s' hs hupd
    unfold update at hupd
    simp only at hupd
    split at hupd
    · -- trading hours enabled
      split at hupd
      · -- flattened-today flag reset
        split at hupd
        · refine (checkTradeToRemove_facts hupd).2.2.1 ?_
          split
          · exact (flattenAllPositions_facts _).2.2.2.2.2.2.2.2.1 hs
          · exact hs
        · split at hupd
          · exact (checkTradeToRemove_facts hupd).2.2.1 hs
          · split at hupd
            · exact (checkTradeToRemove_facts hupd).2.2.1 ((runBuyStrategy_facts ok _).2.1 hs)
            · exact (checkTradeToRemove_facts hupd).2.2.1 ((runSellStrategy_facts ok _).2.1 hs)
      · -- flag untouched
        split at hupd
        · refine (checkTradeToRemove_facts hupd).2.2.1 ?_
          split
          · exact (flattenAllPositions_facts _).2.2.2.2.2.2.2.2.1 hs
          · exact hs
        · split at hupd
          · exact (checkTradeToRemove_facts hupd).2.2.1 hs
          · split at hupd
            · exact (checkTradeToRemove_facts hupd).2.2.1 ((runBuyStrategy_facts ok _).2.1 hs)
            · exact (checkTradeToRemove_facts hupd).2.2.1 ((runSellStrategy_facts ok _).2.1 hs)
    · -- trading hours disabled
      split at hupd
      · exact (checkTradeToRemove_facts hupd).2.2.1 ((runBuyStrategy_facts ok _).2.1 hs)
      · exact (checkTradeToRemove_facts hupd).2.2.1 ((runSellStrategy_facts ok _).2.1 hs)
  · intro s s' hpos h
    exact (checkTradeToRemove_facts h).2.1 hpos

/-- Projects the payload out of a known-successful `Except`. -/
def exceptOr {α : Type} (e : Except String α) (d : α) : α :=
  match e with
  | Except.ok a => a
  | Except.error _ => d

/-- A synced state with one open long trade. -/
def c5State : StrategyState :=
  { baseState with openTradeCount := 1, openTradeList := [c8Trade] }

/-- The result of one `update` call on `c5State`. -/
def c5Result : StrategyState :=
  exceptOr (update (fun _ => true) c5State 600 101 102 102 101) baseState

unseal Rat.add Rat.sub Rat.mul Rat.inv in
/-- Witness for C5 at a concrete bar. -/
theorem C5_count_matches_list_witness :
    (specCountSync c5State ∧ c5Result.openTradeCount = (c5Result.openTradeList.length : Int)) ∧
    (0 < c5State.openTradeCount ∧
      (exceptOr (checkTradeToRemove c5State) baseState).openTradeCount =
        ((exceptOr (checkTradeToRemove c5State) baseState).openTradeList.length : Int)) :=
  ⟨⟨by decide,
    by
      have h := C5_count_matches_list.1 (fun _ => true) c5State 600 101 102 102 101 c5Result
        (by decide)
        (by decide :
          update (fun _ => true) c5State 600 101 102 102 101 = Except.ok c5Result)
      exact h⟩,
   ⟨by decide,
    C5_count_matches_list.2 c5State (exceptOr (checkTradeToRemove c5State) baseState)
      (by decide)
      (by decide : checkTradeToRemove c5State =
        Except.ok (exceptOr (checkTradeToRemove c5State) baseState))⟩⟩

/-- The FLATTEN_WINDOW of a timestamp's exchange-local date: the 20
minutes before that date's close. -/
def specInFlattenWindow (cal : EarlyCloseCalendar) (t : Nat) : Prop :=
  flattenTimeForDate cal t ≤ secOfDay t ∧ secOfDay t < closeTimeForDate cal t

instance (cal : EarlyCloseCalendar) (t : Nat) : Decidable (specInFlattenWindow cal t) := by
  unfold specInFlattenWindow; infer_instance

/-- The claim-C6 bar classes: in the flatten window, on a Saturday, or on
a Sunday before 17:00 CT. -/
def specClosedOrFlattenBar (cal : EarlyCloseCalendar) (t : Nat) : Prop :=
  specInFlattenWindow cal t ∨ weekdayOf t = 5 ∨
    (weekdayOf t = 6 ∧ secOfDay t < dailyReopenSec)

instance (cal : EarlyCloseCalendar) (t : Nat) : Decidable (specClosedOrFlattenBar cal t) := by
  unfold specClosedOrFlattenBar; infer_instance

/-- On every claim-C6 bar the oracle either orders a flatten or forbids
trading. -/
theorem tradingHours_gate (cal : EarlyCloseCalendar) (t : Nat)
    (hcase : specClosedOrFlattenBar cal t) :
    shouldFlattenPositions cal t = true ∨ isTradingAllowed cal t = false := by
  unfold specClosedOrFlattenBar specInFlattenWindow at hcase
  unfold shouldFlattenPositions isTradingAllowed isMarketClosed
  rcases hcase with ⟨h1, h2⟩ | h5 | ⟨h6, h7⟩
  · by_cases w5 : weekdayOf t = 5
    · right; simp [w5]
    · by_cases w6 : weekdayOf t = 6 ∧ secOfDay t < dailyReopenSec
      · right
        simp [w6.1, w6.2, w5]
      · left
        simp [w5, w6, h1, h2]
  · right; simp [h5]
  · right
    by_cases w5 : weekdayOf t = 5
    · simp [w5]
    · simp [w5, h6, h7]


/-- The bar-updated state at the top of `StrategyBacktester.update`. -/
def barSt (s : StrategyState) (index : Nat) (p lp hp lo : ℚ) : StrategyState :=
  { s with price := p, lastPrice := lp, highPrice := hp, lowPrice := lo, index := index }

/-- The bar-updated state after the new-exchange-date flag reset. -/
def barStR (s : StrategyState) (index : Nat) (p lp hp lo : ℚ) : StrategyState :=
  { s with
    price := p
    lastPrice := lp
    highPrice := hp
    lowPrice := lo
    index := index
    positionsFlattenedToday := false }

/-- Branch-conditional behaviour of one `update` call:
(1) on a bar where the calendar orders a flatten or forbids trading, only
FLATTEN/EXIT records can be appended (no BUY/SELL);
(2) once the flattened-today flag is set for the bar's date, no further
FLATTEN records are appended by any path;
(3) a flatten-window bar with the flag clear and open trades performs the
flatten and marks the flag with the bar's date. -/
theorem update_facts (ok : Nat → Bool) (s : StrategyState) (index : Nat) (p lp hp lo : ℚ)
    (s' : StrategyState) (hupd : update ok s index p lp hp lo = Except.ok s') :
    (s.useTradingHours = true →
      (shouldFlattenPositions s.earlyCloseCalendar index = true ∨
        isTradingAllowed s.earlyCloseCalendar index = false) →
      ∃ hl, s'.tradeHistory = s.tradeHistory ++ hl ∧
        ∀ rec ∈ hl, rec.kind = TradeKind.EXIT ∨ rec.kind = TradeKind.FLATTEN) ∧
    (s.positionsFlattenedToday = true → s.lastFlattenDate = some (dateOf index) →
      ∃ hl, s'.tradeHistory = s.tradeHistory ++ hl ∧
        ∀ rec ∈ hl, rec.kind ≠ TradeKind.FLATTEN) ∧
    (s.useTradingHours = true → s.positionsFlattenedToday = false →
      0 < s.openTradeCount →
      shouldFlattenPositions s.earlyCloseCalendar index = true →
      s'.positionsFlattenedToday = true ∧ s'.lastFlattenDate = some (dateOf index)) := by
  unfold update at hupd
  simp only at hupd
  split at hupd
  · rename_i hTH
    split at hupd
    · -- new exchange date: flag cleared
      rename_i hRS
      split at hupd
      · rename_i hSF
        split at hupd
        · rename_i hTaken
          obtain ⟨⟨hl1, hh1, hk1⟩, -, -, -, -, -, -, -, -, hpf, hpd, -⟩ :=
            checkTradeToRemove_facts hupd
          obtain ⟨-, ⟨hlf, hhf, hkf⟩, -⟩ :=
            flattenAllPositions_facts (barStR s index p lp hp lo)
          refine ⟨?_, ?_, ?_⟩
          · intro _ _
            have hh1a : s'.tradeHistory =
                (flattenAllPositions (barStR s index p lp hp lo)).tradeHistory ++ hl1 := hh1
            rw [hhf] at hh1a
            have hbase : (barStR s index p lp hp lo).tradeHistory = s.tradeHistory := rfl
            rw [hbase, List.append_assoc] at hh1a
            refine ⟨hlf ++ hl1, hh1a, ?_⟩
            intro rec hrec
            rcases List.mem_append.mp hrec with hx | hx
            · exact Or.inr (hkf rec hx)
            · exact Or.inl (hk1 rec hx)
          · intro _ hdate
            exact absurd hdate hRS
          · intro _ _ _ _
            exact ⟨hpf.trans rfl, hpd.trans rfl⟩
        · rename_i hTaken
          obtain ⟨⟨hl1, hh1, hk1⟩, -⟩ := checkTradeToRemove_facts hupd
          refine ⟨?_, ?_, ?_⟩
          · intro _ _
            exact ⟨hl1, hh1, fun rec hrec => Or.inl (hk1 rec hrec)⟩
          · intro _ _
            exact ⟨hl1, hh1, fun rec hrec => by simp [hk1 rec hrec]⟩
          · intro _ _ hcount _
            exact absurd ⟨rfl, hcount⟩ hTaken
      · rename_i hSF
        split at hupd
        · obtain ⟨⟨hl1, hh1, hk1⟩, -⟩ := checkTradeToRemove_facts hupd
          refine ⟨?_, ?_, ?_⟩
          · intro _ _
            exact ⟨hl1, hh1, fun rec hrec => Or.inl (hk1 rec hrec)⟩
          · intro _ _
            exact ⟨hl1, hh1, fun rec hrec => by simp [hk1 rec hrec]⟩
          · intro _ _ _ hsf
            exact absurd hsf hSF
        · rename_i hAllowed
          refine ⟨?_, ?_, ?_⟩
          · intro _ hgate
            rcases hgate with hg | hg
            · exact absurd hg hSF
            · have hb : (!isTradingAllowed s.earlyCloseCalendar index) = true := by rw [hg]; rfl
              exact absurd hb hAllowed
          · intro _ _
            split at hupd
            · obtain ⟨⟨hl0, hh0, hk0⟩, -⟩ := runBuyStrategy_facts ok (barStR s index p lp hp lo)
              obtain ⟨⟨hl1, hh1, hk1⟩, -⟩ := checkTradeToRemove_facts hupd
              have hh1a : s'.tradeHistory =
                  (runBuyStrategy ok (barStR s index p lp hp lo)).tradeHistory ++ hl1 := hh1
              rw [hh0] at hh1a
              have hbase : (barStR s index p lp hp lo).tradeHistory = s.tradeHistory := rfl
              rw [hbase, List.append_assoc] at hh1a
              refine ⟨hl0 ++ hl1, hh1a, ?_⟩
              intro rec hrec
              rcases List.mem_append.mp hrec with hx | hx
              · simp [hk0 rec hx]
              · simp [hk1 rec hx]
            · obtain ⟨⟨hl0, hh0, hk0⟩, -⟩ := runSellStrategy_facts ok (barStR s index p lp hp lo)
              obtain ⟨⟨hl1, hh1, hk1⟩, -⟩ := checkTradeToRemove_facts hupd
              have hh1a : s'.tradeHistory =
                  (runSellStrategy ok (barStR s index p lp hp lo)).tradeHistory ++ hl1 := hh1
              rw [hh0] at hh1a
              have hbase : (barStR s index p lp hp lo).tradeHistory = s.tradeHistory := rfl
              rw [hbase, List.append_assoc] at hh1a
              refine ⟨hl0 ++ hl1, hh1a, ?_⟩
              intro rec hrec
              rcases List.mem_append.mp hrec with hx | hx
              · simp [hk0 rec hx]
              · simp [hk1 rec hx]
          · intro _ _ _ hsf
            exact absurd hsf hSF
    · -- same exchange date: flag kept
      rename_i hRS
      split at hupd
      · rename_i hSF
        split at hupd
        · rename_i hTaken
          obtain ⟨⟨hl1, hh1, hk1⟩, -, -, -, -, -, -, -, -, hpf, hpd, -⟩ :=
            checkTradeToRemove_facts hupd
          obtain ⟨-, ⟨hlf, hhf, hkf⟩, -⟩ :=
            flattenAllPositions_facts (barSt s index p lp hp lo)
          refine ⟨?_, ?_, ?_⟩
          · intro _ _
            have hh1a : s'.tradeHistory =
                (flattenAllPositions (barSt s index p lp hp lo)).tradeHistory ++ hl1 := hh1
            rw [hhf] at hh1a
            have hbase : (barSt s index p lp hp lo).tradeHistory = s.tradeHistory := rfl
            rw [hbase, List.append_assoc] at hh1a
            refine ⟨hlf ++ hl1, hh1a, ?_⟩
            intro rec hrec
            rcases List.mem_append.mp hrec with hx | hx
            · exact Or.inr (hkf rec hx)
            · exact Or.inl (hk1 rec hx)
          · intro hflag _
            have hb : (!s.positionsFlattenedToday) = true := hTaken.1
            rw [hflag] at hb
            simp at hb
          · intro _ _ _ _
            exact ⟨hpf.trans rfl, hpd.trans rfl⟩
        · rename_i hTaken
          obtain ⟨⟨hl1, hh1, hk1⟩, -⟩ := checkTradeToRemove_facts hupd
          refine ⟨?_, ?_, ?_⟩
          · intro _ _
            exact ⟨hl1, hh1, fun rec hrec => Or.inl (hk1 rec hrec)⟩
          · intro _ _
            exact ⟨hl1, hh1, fun rec hrec => by simp [hk1 rec hrec]⟩
          · intro _ hflag hcount _
            have hb : (!s.positionsFlattenedToday) = true := by rw [hflag]; rfl
            exact absurd ⟨hb, hcount⟩ hTaken
      · rename_i hSF
        split at hupd
        · obtain ⟨⟨hl1, hh1, hk1⟩, -⟩ := checkTradeToRemove_facts hupd
          refine ⟨?_, ?_, ?_⟩
          · intro _ _
            exact ⟨hl1, hh1, fun rec hrec => Or.inl (hk1 rec hrec)⟩
          · intro _ _
            exact ⟨hl1, hh1, fun rec hrec => by simp [hk1 rec hrec]⟩
          · intro _ _ _ hsf
            exact absurd hsf hSF
        · rename_i hAllowed
          refine ⟨?_, ?_, ?_⟩
          · intro _ hgate
            rcases hgate with hg | hg
            · exact absurd hg hSF
            · have hb : (!isTradingAllowed s.earlyCloseCalendar index) = true := by rw [hg]; rfl
              exact absurd hb hAllowed
          · intro _ _
            split at hupd
            · obtain ⟨⟨hl0, hh0, hk0⟩, -⟩ := runBuyStrategy_facts ok (barSt s index p lp hp lo)
              obtain ⟨⟨hl1, hh1, hk1⟩, -⟩ := checkTradeToRemove_facts hupd
              have hh1a : s'.tradeHistory =
                  (runBuyStrategy ok (barSt s index p lp hp lo)).tradeHistory ++ hl1 := hh1
              rw [hh0] at hh1a
              have hbase : (barSt s index p lp hp lo).tradeHistory = s.tradeHistory := rfl
              rw [hbase, List.append_assoc] at hh1a
              refine ⟨hl0 ++ hl1, hh1a, ?_⟩
              intro rec hrec
              rcases List.mem_append.mp hrec with hx | hx
              · simp [hk0 rec hx]
              · simp [hk1 rec hx]
            · obtain ⟨⟨hl0, hh0, hk0⟩, -⟩ := runSellStrategy_facts ok (barSt s index p lp hp lo)
              obtain ⟨⟨hl1, hh1, hk1⟩, -⟩ := checkTradeToRemove_facts hupd
              have hh1a : s'.tradeHistory =
                  (runSellStrategy ok (barSt s index p lp hp lo)).tradeHistory ++ hl1 := hh1
              rw [hh0] at hh1a
              have hbase : (barSt s index p lp hp lo).tradeHistory = s.tradeHistory := rfl
              rw [hbase, List.append_assoc] at hh1a
              refine ⟨hl0 ++ hl1, hh1a, ?_⟩
              intro rec hrec
              rcases List.mem_append.mp hrec with hx | hx
              · simp [hk0 rec hx]
              · simp [hk1 rec hx]
          · intro _ _ _ hsf
            exact absurd hsf hSF
  · rename_i hTH
    refine ⟨?_, ?_, ?_⟩
    · intro hth _
      exact absurd hth hTH
    · intro _ _
      split at hupd
      · obtain ⟨⟨hl0, hh0, hk0⟩, -⟩ := runBuyStrategy_facts ok (barSt s index p lp hp lo)
        obtain ⟨⟨hl1, hh1, hk1⟩, -⟩ := checkTradeToRemove_facts hupd
        have hh1a : s'.tradeHistory =
            (runBuyStrategy ok (barSt s index p lp hp lo)).tradeHistory ++ hl1 := hh1
        rw [hh0] at hh1a
        have hbase : (barSt s index p lp hp lo).tradeHistory = s.tradeHistory := rfl
        rw [hbase, List.append_assoc] at hh1a
        refine ⟨hl0 ++ hl1, hh1a, ?_⟩
        intro rec hrec
        rcases List.mem_append.mp hrec with hx | hx
        · simp [hk0 rec hx]
        · simp [hk1 rec hx]
      · obtain ⟨⟨hl0, hh0, hk0⟩, -⟩ := runSellStrategy_facts ok (barSt s index p lp hp lo)
        obtain ⟨⟨hl1, hh1, hk1⟩, -⟩ := checkTradeToRemove_facts hupd
        have hh1a : s'.tradeHistory =
            (runSellStrategy ok (barSt s index p lp hp lo)).tradeHistory ++ hl1 := hh1
        rw [hh0] at hh1a
        have hbase : (barSt s index p lp hp lo).tradeHistory = s.tradeHistory := rfl
        rw [hbase, List.append_assoc] at hh1a
        refine ⟨hl0 ++ hl1, hh1a, ?_⟩
        intro rec hrec
        rcases List.mem_append.mp hrec with hx | hx
        · simp [hk0 rec hx]
        · simp [hk1 rec hx]
    · intro hth _ _ _
      exact absurd hth hTH

/-- **C6.** With trading hours enabled, a bar in the flatten window, on a
Saturday, or on a Sunday before 17:00 CT appends no BUY or SELL history
record, whatever the prices: only exit evaluation (and, at most once per
date, the flatten) runs. -/
theorem C6_no_entries_when_closed (ok : Nat → Bool) (s : StrategyState) (index : Nat)
    (p lp hp lo : ℚ) (s' : StrategyState)
    (hth : s.useTradingHours = true)
    (hbar : specClosedOrFlattenBar s.earlyCloseCalendar index)
    (hupd : update ok s index p lp hp lo = Except.ok s') :
    specEntryRecords s'.tradeHistory = specEntryRecords s.tradeHistory := by
  obtain ⟨h1, -, -⟩ := update_facts ok s index p lp hp lo s' hupd
  obtain ⟨hl, hh, hk⟩ := h1 hth (tradingHours_gate s.earlyCloseCalendar index hbar)
  rw [hh]
  exact specEntryRecords_append_of_none _ _ hk

/-- A trading-hours-enabled state with an armed long entry. -/
def c6State : StrategyState :=
  { baseState with useTradingHours := true }

/-- What one Saturday bar does to `c6State`: only the bar fields move. -/
def c6Result : StrategyState :=
  { c6State with
    price := 101
    lastPrice := 102
    highPrice := 102
    lowPrice := 101
    index := 432000 }

unseal Rat.add Rat.sub Rat.mul Rat.inv in
/-- Witness for C6 at a concrete Saturday bar (second 432000 = Saturday
00:00): the armed entry does not fire. -/
theorem C6_no_entries_when_closed_witness :
    specEntryRecords c6Result.tradeHistory = specEntryRecords c6State.tradeHistory :=
  C6_no_entries_when_closed (fun _ => true) c6State 432000 101 102 102 101 c6Result
    rfl (by decide) (by decide)

/-- **C7.** `flatten_all_positions` appends exactly one FLATTEN record per
open trade (pnl `(close − entry) × symbol_size` long, mirrored short,
each pushed onto `cumulative_pnl`) and empties the list and counter; the
window-triggered flatten happens at most once per exchange-local date: a
bar whose date is already marked appends no further FLATTEN record, and
the flatten marks the flag with the bar's date. -/
theorem C7_flatten_effects_and_daily_once :
    (∀ s : StrategyState, specCountSync s →
      (flattenAllPositions s).tradeHistory =
        s.tradeHistory ++
          s.openTradeList.map (specFlattenRecord s.index s.price s.symbolSize) ∧
      (flattenAllPositions s).openTradeList = [] ∧
      (flattenAllPositions s).openTradeCount = 0 ∧
      (flattenAllPositions s).cumulativePnl.length =
        s.cumulativePnl.length + s.openTradeList.length) ∧
    (∀ (ok : Nat → Bool) (s : StrategyState) (index : Nat) (p lp hp lo : ℚ)
      (s' : StrategyState),
      update ok s index p lp hp lo = Except.ok s' →
      s.positionsFlattenedToday = true → s.lastFlattenDate = some (dateOf index) →
      specFlattenRecords s'.tradeHistory = specFlattenRecords s.tradeHistory) ∧
    (∀ (ok : Nat → Bool) (s : StrategyState) (index : Nat) (p lp hp lo : ℚ)
      (s' : StrategyState),
      update ok s index p lp hp lo = Except.ok s' →
      s.useTradingHours = true → s.positionsFlattenedToday = false →
      0 < s.openTradeCount →
      shouldFlattenPositions s.earlyCloseCalendar index = true →
      s'.positionsFlattenedToday = true ∧ s'.lastFlattenDate = some (dateOf index)) := by
  refine ⟨?_, ?_, ?_⟩
  · intro s hsync
    exact (flattenAllPositions_facts s).1 hsync
  · intro ok s index p lp hp lo s' hupd hflag hdate
    obtain ⟨-, h2, -⟩ := update_facts ok s index p lp hp lo s' hupd
    obtain ⟨hl, hh, hk⟩ := h2 hflag hdate
    rw [hh]
    exact specFlattenRecords_append_of_none _ _ hk
  · intro ok s index p lp hp lo s' hupd hth hflag hcount hsf
    obtain ⟨-, -, h3⟩ := update_facts ok s index p lp hp lo s' hupd
    exact h3 hth hflag hcount hsf

/-- A trading-hours-enabled state with one open trade, in sync. -/
def c7State : StrategyState :=
  { baseState with
    useTradingHours := true
    openTradeCount := 1
    openTradeList := [c8Trade] }

/-- The result of a flatten-window bar (15:41:40 CT Monday) on `c7State`. -/
def c7Result : StrategyState :=
  exceptOr (update (fun _ => true) c7State 56500 101 102 102 101) baseState

/-- A state already flattened today (date 0). -/
def c7bState : StrategyState :=
  { baseState with
    useTradingHours := true
    positionsFlattenedToday := true
    lastFlattenDate := some 0 }

/-- The result of a flatten-window bar on the already-flattened state. -/
def c7bResult : StrategyState :=
  exceptOr (update (fun _ => true) c7bState 56500 101 102 102 101) baseState

unseal Rat.add Rat.sub Rat.mul Rat.inv in
/-- Witness for C7: the flatten empties `c7State`'s book with one FLATTEN
record, a second flatten-window bar on the marked state appends none, and
the first flatten marks the flag with the bar's date. -/
theorem C7_flatten_effects_and_daily_once_witness :
    ((flattenAllPositions c7State).tradeHistory =
        c7State.tradeHistory ++
          c7State.openTradeList.map
            (specFlattenRecord c7State.index c7State.price c7State.symbolSize) ∧
      (flattenAllPositions c7State).openTradeList = [] ∧
      (flattenAllPositions c7State).openTradeCount = 0 ∧
      (flattenAllPositions c7State).cumulativePnl.length =
        c7State.cumulativePnl.length + c7State.openTradeList.length) ∧
    specFlattenRecords c7bResult.tradeHistory = specFlattenRecords c7bState.tradeHistory ∧
    (c7Result.positionsFlattenedToday = true ∧
      c7Result.lastFlattenDate = some (dateOf 56500)) :=
  ⟨C7_flatten_effects_and_daily_once.1 c7State (by decide),
   C7_flatten_effects_and_daily_once.2.1 (fun _ => true) c7bState 56500 101 102 102 101
     c7bResult (by decide) rfl (by decide),
   C7_flatten_effects_and_daily_once.2.2 (fun _ => true) c7State 56500 101 102 102 101
     c7Result (by decide) rfl rfl (by decide) (by decide)⟩

/-- Invariant carried through the phase-D entry fold: either nothing has
fired (count and rate-limit stamp untouched) or at most one level has
fired, adding at most `max_contracts_per_trade` and stamping
`last_entry_time` with the current bar so every later level is gated. -/
def capInv (s0 : StrategyState) (acc : StrategyState × Nat) : Prop :=
  acc.1.index = s0.index ∧
  acc.1.maxContractsPerTrade = s0.maxContractsPerTrade ∧
  ((acc.1.openTradeCount = s0.openTradeCount ∧ acc.1.lastEntryTime = s0.lastEntryTime) ∨
   (acc.1.openTradeCount ≤ s0.maxOpenTrades - 1 + (s0.maxContractsPerTrade : Int) ∧
    acc.1.lastEntryTime = some s0.index))

theorem buyEntryStep_cap (ok : Nat → Bool) (s0 : StrategyState)
    (hroom : s0.openTradeCount ≤ s0.maxOpenTrades - 1)
    (acc : StrategyState × Nat) (level : ℚ) (hP : capInv s0 acc) :
    capInv s0 (buyEntryStep ok acc level) := by
  obtain ⟨s, cnt⟩ := acc
  obtain ⟨hidx, hmc, hcase⟩ := hP
  unfold buyEntryStep
  simp only
  split
  · split
    · exact ⟨hidx, hmc, hcase⟩
    · split
      · exact ⟨hidx, hmc, hcase⟩
      · rename_i hnb
        rcases hcase with ⟨hc, hl⟩ | ⟨hc, hl⟩
        · rw [enterContracts_eq]
          refine ⟨hidx, hmc, ?_⟩
          by_cases hk : 0 < succCount ok cnt s.maxContractsPerTrade
          · right
            constructor
            · show s.openTradeCount + (succCount ok cnt s.maxContractsPerTrade : Int) ≤
                s0.maxOpenTrades - 1 + (s0.maxContractsPerTrade : Int)
              have hkle := succCount_le ok cnt s.maxContractsPerTrade
              rw [hc, hmc]
              rw [hmc] at hkle
              omega
            · show (if 0 < succCount ok cnt s.maxContractsPerTrade then some s.index
                    else s.lastEntryTime) = some s0.index
              rw [if_pos hk, hidx]
          · left
            have hk0 : succCount ok cnt s.maxContractsPerTrade = 0 := by omega
            constructor
            · show s.openTradeCount + (succCount ok cnt s.maxContractsPerTrade : Int) =
                s0.openTradeCount
              rw [hk0, hc]
              simp
            · show (if 0 < succCount ok cnt s.maxContractsPerTrade then some s.index
                    else s.lastEntryTime) = s0.lastEntryTime
              rw [if_neg hk, hl]
        · have hl2 : s.lastEntryTime = some s0.index := hl
          have hidx2 : s.index = s0.index := hidx
          have hb : entryBlocked s = true := by
            simp [entryBlocked, hl2, hidx2, minEntryIntervalSec]
          exact absurd hb hnb
  · exact ⟨hidx, hmc, hcase⟩

theorem sellEntryStep_cap (ok : Nat → Bool) (s0 : StrategyState)
    (hroom : s0.openTradeCount ≤ s0.maxOpenTrades - 1)
    (acc : StrategyState × Nat) (level : ℚ) (hP : capInv s0 acc) :
    capInv s0 (sellEntryStep ok acc level) := by
  obtain ⟨s, cnt⟩ := acc
  obtain ⟨hidx, hmc, hcase⟩ := hP
  unfold sellEntryStep
  simp only
  split
  · split
    · exact ⟨hidx, hmc, hcase⟩
    · split
      · exact ⟨hidx, hmc, hcase⟩
      · rename_i hnb
        rcases hcase with ⟨hc, hl⟩ | ⟨hc, hl⟩
        · rw [enterContracts_eq]
          refine ⟨hidx, hmc, ?_⟩
          by_cases hk : 0 < succCount ok cnt s.maxContractsPerTrade
          · right
            constructor
            · show s.openTradeCount + (succCount ok cnt s.maxContractsPerTrade : Int) ≤
                s0.maxOpenTrades - 1 + (s0.maxContractsPerTrade : Int)
              have hkle := succCount_le ok cnt s.maxContractsPerTrade
              rw [hc, hmc]
              rw [hmc] at hkle
              omega
            · show (if 0 < succCount ok cnt s.maxContractsPerTrade then some s.index
                    else s.lastEntryTime) = some s0.index
              rw [if_pos hk, hidx]
          · left
            have hk0 : succCount ok cnt s.maxContractsPerTrade = 0 := by omega
            constructor
            · show s.openTradeCount + (succCount ok cnt s.maxContractsPerTrade : Int) =
                s0.openTradeCount
              rw [hk0, hc]
              simp
            · show (if 0 < succCount ok cnt s.maxContractsPerTrade then some s.index
                    else s.lastEntryTime) = s0.lastEntryTime
              rw [if_neg hk, hl]
        · have hl2 : s.lastEntryTime = some s0.index := hl
          have hidx2 : s.index = s0.index := hidx
          have hb : entryBlocked s = true := by
            simp [entryBlocked, hl2, hidx2, minEntryIntervalSec]
          exact absurd hb hnb
  · exact ⟨hidx, hmc, hcase⟩

theorem runBuyStrategy_cap (ok : Nat → Bool) (s : StrategyState) :
    (runBuyStrategy ok s).openTradeCount ≤
      max s.openTradeCount (s.maxOpenTrades - 1 + (s.maxContractsPerTrade : Int)) := by
  unfold runBuyStrategy
  simp only
  set s1 := resetBarTracking s with hs1
  set s2 := s1.staticLevels.foldl annotateBuyStep s1 with hs2
  have hre := resetBarTracking_eq s
  have hva : nonRetraceView s2 = nonRetraceView s1 :=
    foldl_retrace_view annotateBuyStep annotateBuyStep_eq annotateBuyStep_len s1.staticLevels s1
  simp only [nonRetraceView, Prod.mk.injEq] at hva
  obtain ⟨-, a2, -, -, -, -, -, -, -, -, a11, a12, -, -, -, -, -, -, -, -, -, -, -, -, -, -,
    -, -, -⟩ := hva
  have hc1 : s1.openTradeCount = s.openTradeCount := by rw [hs1, hre]
  have hm1 : s1.maxOpenTrades = s.maxOpenTrades := by rw [hs1, hre]
  have hmc1 : s1.maxContractsPerTrade = s.maxContractsPerTrade := by rw [hs1, hre]
  split
  · rename_i hroom
    have hroom2 : s2.openTradeCount ≤ s2.maxOpenTrades - 1 := by
      unfold calculateMaxOpenTrades at hroom
      rw [a2, a11]
      omega
    have hP := foldl_invariant (P := capInv s2) (buyEntryStep ok) s2.staticLevels
      (fun b a hb => buyEntryStep_cap ok s2 hroom2 b a hb)
      (b := (s2, 0)) ⟨rfl, rfl, Or.inl ⟨rfl, rfl⟩⟩
    obtain ⟨-, -, hcase⟩ := hP
    rcases hcase with ⟨hc, -⟩ | ⟨hc, -⟩
    · rw [hc, a2, hc1]
      exact le_max_left _ _
    · refine le_trans hc (le_trans (le_of_eq ?_) (le_max_right _ _))
      rw [a11, a12, hm1, hmc1]
  · rw [a2, hc1]
    exact le_max_left _ _

theorem runSellStrategy_cap (ok : Nat → Bool) (s : StrategyState) :
    (runSellStrategy ok s).openTradeCount ≤
      max s.openTradeCount (s.maxOpenTrades - 1 + (s.maxContractsPerTrade : Int)) := by
  unfold runSellStrategy
  simp only
  set s1 := resetBarTracking s with hs1
  set s2 := s1.staticLevels.foldl annotateSellStep s1 with hs2
  have hre := resetBarTracking_eq s
  have hva : nonRetraceView s2 = nonRetraceView s1 :=
    foldl_retrace_view annotateSellStep annotateSellStep_eq annotateSellStep_len s1.staticLevels s1
  simp only [nonRetraceView, Prod.mk.injEq] at hva
  obtain ⟨-, a2, -, -, -, -, -, -, -, -, a11, a12, -, -, -, -, -, -, -, -, -, -, -, -, -, -,
    -, -, -⟩ := hva
  have hc1 : s1.openTradeCount = s.openTradeCount := by rw [hs1, hre]
  have hm1 : s1.maxOpenTrades = s.maxOpenTrades := by rw [hs1, hre]
  have hmc1 : s1.maxContractsPerTrade = s.maxContractsPerTrade := by rw [hs1, hre]
  split
  · rename_i hroom
    have hroom2 : s2.openTradeCount ≤ s2.maxOpenTrades - 1 := by
      unfold calculateMaxOpenTrades at hroom
      rw [a2, a11]
      omega
    have hP := foldl_invariant (P := capInv s2) (sellEntryStep ok) s2.staticLevels
      (fun b a hb => sellEntryStep_cap ok s2 hroom2 b a hb)
      (b := (s2, 0)) ⟨rfl, rfl, Or.inl ⟨rfl, rfl⟩⟩
    obtain ⟨-, -, hcase⟩ := hP
    rcases hcase with ⟨hc, -⟩ | ⟨hc, -⟩
    · rw [hc, a2, hc1]
      exact le_max_left _ _
    · refine le_trans hc (le_trans (le_of_eq ?_) (le_max_right _ _))
      rw [a11, a12, hm1, hmc1]
  · rw [a2, hc1]
    exact le_max_left _ _

/-- **C10 (amended).** One `update` call on a synced state can overshoot
`max_open_trades`, but only once and only by the contract multiplier: the
count never exceeds `max(open_trade_count, max_open_trades - 1 +
max_contracts_per_trade)`.  The claimed invariant
`open_trade_count ≤ max_open_trades` is refuted below. -/
theorem C10_open_trades_bound (ok : Nat → Bool) (s : StrategyState) (index : Nat)
    (p lp hp lo : ℚ) (s' : StrategyState)
    (hsync : specCountSync s)
    (hupd : update ok s index p lp hp lo = Except.ok s') :
    s'.openTradeCount ≤
      max s.openTradeCount (s.maxOpenTrades - 1 + (s.maxContractsPerTrade : Int)) := by
  have hge : (0 : Int) ≤ s.openTradeCount := by
    rw [hsync]
    exact_mod_cast Nat.zero_le _
  unfold update at hupd
  simp only at hupd
  split at hupd
  · split at hupd
    · -- new exchange date
      split at hupd
      · -- flatten window
        refine le_trans ((checkTradeToRemove_facts hupd).2.2.2.1 ?_) ?_
        · split
          · exact (flattenAllPositions_facts _).2.2.2.2.2.2.2.2.1 hsync
          · exact hsync
        · split
          · rcases (flattenAllPositions_facts
                (barStR s index p lp hp lo)).2.2.2.2.2.2.2.2.2 with h0 | hid
            · have hgoal : (flattenAllPositions (barStR s index p lp hp lo)).openTradeCount ≤
                  max s.openTradeCount
                    (s.maxOpenTrades - 1 + (s.maxContractsPerTrade : Int)) := by
                rw [h0]
                exact le_trans hge (le_max_left _ _)
              exact hgoal
            · have hgoal : (flattenAllPositions (barStR s index p lp hp lo)).openTradeCount ≤
                  max s.openTradeCount
                    (s.maxOpenTrades - 1 + (s.maxContractsPerTrade : Int)) := by
                rw [hid]
                exact le_max_left _ _
              exact hgoal
          · exact le_max_left _ _
      · split at hupd
        · -- market closed
          exact le_trans ((checkTradeToRemove_facts hupd).2.2.2.1 hsync) (le_max_left _ _)
        · split at hupd
          · exact le_trans ((checkTradeToRemove_facts hupd).2.2.2.1
              ((runBuyStrategy_facts ok _).2.1 hsync))
              (runBuyStrategy_cap ok (barStR s index p lp hp lo))
          · exact le_trans ((checkTradeToRemove_facts hupd).2.2.2.1
              ((runSellStrategy_facts ok _).2.1 hsync))
              (runSellStrategy_cap ok (barStR s index p lp hp lo))
    · -- same exchange date
      split at hupd
      · refine le_trans ((checkTradeToRemove_facts hupd).2.2.2.1 ?_) ?_
        · split
          · exact (flattenAllPositions_facts _).2.2.2.2.2.2.2.2.1 hsync
          · exact hsync
        · split
          · rcases (flattenAllPositions_facts
                (barSt s index p lp hp lo)).2.2.2.2.2.2.2.2.2 with h0 | hid
            · have hgoal : (flattenAllPositions (barSt s index p lp hp lo)).openTradeCount ≤
                  max s.openTradeCount
                    (s.maxOpenTrades - 1 + (s.maxContractsPerTrade : Int)) := by
                rw [h0]
                exact le_trans hge (le_max_left _ _)
              exact hgoal
            · have hgoal : (flattenAllPositions (barSt s index p lp hp lo)).openTradeCount ≤
                  max s.openTradeCount
                    (s.maxOpenTrades - 1 + (s.maxContractsPerTrade : Int)) := by
                rw [hid]
                exact le_max_left _ _
              exact hgoal
          · exact le_max_left _ _
      · split at hupd
        · exact le_trans ((checkTradeToRemove_facts hupd).2.2.2.1 hsync) (le_max_left _ _)
        · split at hupd
          · exact le_trans ((checkTradeToRemove_facts hupd).2.2.2.1
              ((runBuyStrategy_facts ok _).2.1 hsync))
              (runBuyStrategy_cap ok (barSt s index p lp hp lo))
          · exact le_trans ((checkTradeToRemove_facts hupd).2.2.2.1
              ((runSellStrategy_facts ok _).2.1 hsync))
              (runSellStrategy_cap ok (barSt s index p lp hp lo))
  · split at hupd
    · exact le_trans ((checkTradeToRemove_facts hupd).2.2.2.1
        ((runBuyStrategy_facts ok _).2.1 hsync))
        (runBuyStrategy_cap ok (barSt s index p lp hp lo))
    · exact le_trans ((checkTradeToRemove_facts hupd).2.2.2.1
        ((runSellStrategy_facts ok _).2.1 hsync))
        (runSellStrategy_cap ok (barSt s index p lp hp lo))

/-- `baseState` configured with `max_open_trades = 1` but two contracts
per trade, its long entry armed. -/
def c10State : StrategyState :=
  { baseState with maxContractsPerTrade := 2 }

/-- The result of the armed bar on `c10State`. -/
def c10Result : StrategyState :=
  exceptOr (update (fun _ => true) c10State 600 101 102 102 101) baseState

unseal Rat.add Rat.sub Rat.mul Rat.inv in
/-- **C10 counterexample.** With `max_open_trades = 1` and
`max_contracts_per_trade = 2`, one armed bar (all orders succeeding)
leaves `open_trade_count = 2 > max_open_trades`: the cap is checked once
per call before the per-contract loop, so a single trigger exceeds it. -/
theorem C10_cap_exceeded_counterexample :
    c10State.maxOpenTrades = 1 ∧ specCountSync c10State ∧
    update (fun _ => true) c10State 600 101 102 102 101 = Except.ok c10Result ∧
    c10Result.openTradeCount = 2 := by
  refine ⟨rfl, by decide, by decide, by decide⟩

unseal Rat.add Rat.sub Rat.mul Rat.inv in
/-- Witness for the amended C10 bound at the counterexample's input:
`2 ≤ max 0 (1 - 1 + 2)`. -/
theorem C10_open_trades_bound_witness :
    c10Result.openTradeCount ≤
      max c10State.openTradeCount
        (c10State.maxOpenTrades - 1 + (c10State.maxContractsPerTrade : Int)) :=
  C10_open_trades_bound (fun _ => true) c10State 600 101 102 102 101 c10Result
    (by decide) (by decide)

/-- **C1 (amended).** The save/load round trip into a fresh instance
restores every persisted field, but `position`, the flattened-today
flag/date and the three entry-rate-limit fields (`entries_this_bar`,
`last_entry_time`, `last_bar_index`) have no columns in the
`strategy_state` schema and come back as constructor defaults. -/
theorem C1_roundtrip_resets_rate_limit (s : StrategyState) :
    persistenceRoundTrip s = { s with
      position := none
      positionsFlattenedToday := false
      lastFlattenDate := none
      entriesThisBar := []
      lastBarIndex := none
      lastEntryTime := none } := by
  unfold persistenceRoundTrip setState saveStrategyState freshInstance
  simp only
  split
  · rename_i hcond
    exact absurd hcond.2 hcond.1
  · rfl

/-- `baseState` five minutes after an entry: the interval gate is live. -/
def c1State : StrategyState :=
  { baseState with lastEntryTime := some 400 }

unseal Rat.add Rat.sub Rat.mul Rat.inv in
/-- **C1 counterexample.** At bar 600 the uninterrupted run is still
rate-limited (600 − 400 < 300 s: no BUY appended), but after the
save/load round trip `last_entry_time` is gone and the same bar fires an
entry — the resumed run's history diverges from the uninterrupted one. -/
theorem C1_rate_limit_lost_counterexample :
    Except.map (fun t : StrategyState => (specEntryRecords t.tradeHistory).length)
      (update (fun _ => true) c1State 600 101 102 102 101) = Except.ok 0 ∧
    Except.map (fun t : StrategyState => (specEntryRecords t.tradeHistory).length)
      (update (fun _ => true) (persistenceRoundTrip c1State) 600 101 102 102 101) =
      Except.ok 1 := by
  exact ⟨by decide, by decide⟩
